import Mathlib

/-!
# dunst: the notification lifecycle scheduler of `src/dunst.c`

A shallow embedding of the three notification queues (`queue`, `displayed`,
`history`), the expiry pass `check_timeouts`, the scheduling pass
`update_lists`, the history operations, the sleep computation
`get_sleep_time` and the tick `run`, followed by theorems about them.

Modelling conventions.

* A `notification *` is identified with the `id` field of the record it points
  to; a `GQueue` is the list of the records it holds, head first.
* `gint64` values are integers and `gint64` arithmetic wraps modulo `2^64`
  (`wrap64`).  The `int` counter `timeout_cnt` is an unbounded integer.
* `g_get_monotonic_time()` and `x_is_idle()` are sampled once per tick: every
  call made during one tick sees the same clock value `now` and the same
  idle answer `idle`.
* Calls that leave the file (`notification_run_script`, `notification_free`,
  the close signal, `x_win_show`, `x_win_hide`, `x_win_draw`,
  `g_timeout_add`) are recorded, in call order, in the `log` of the state.
* The GLib main loop is the structure `Loop`: the scheduler state and the
  deadlines of the timers that are armed and have not fired.  A timer fires
  once and calls `run` with non-null data; every other call of `run` has
  `NULL` data.
-/

namespace Dunst

/-! ## Data model -/

/-- The fields of `notification` that `dunst.c` reads or writes.  `script` is
`true` when the C field `n->script` is a non-null pointer. -/
structure Notification where
  id : Nat
  start : Int
  timeout : Int
  timestamp : Int
  transient : Bool
  redisplayed : Bool
  history_ignore : Bool
  script : Bool
  urgency : Int
deriving DecidableEq

/-- The fields of `settings` used by `dunst.c`. -/
structure Settings where
  history_length : Int
  indicate_hidden : Bool
  sticky_history : Bool
  show_age_threshold : Int

/-- What `dunst.c` takes from outside the file: the settings, the layout height
`xctx.geometry.h` and the comparator `notification_cmp_data`. -/
structure Env where
  settings : Settings
  geometry_h : Int
  notification_cmp_data : Notification → Notification → Int

/-- External calls made by the code, recorded in call order. -/
inductive Event where
  | run_script (id : Nat)
  | free (n : Notification)
  | closed (n : Notification) (reason : Int)
  | win_show
  | win_hide
  | win_draw
  | timeout_add (interval : Int) (deadline : Int)
deriving DecidableEq

/-- The global variables of `dunst.c`, the statics of `run`, `xctx.visible`,
the id counter of notification creation and the log of external calls. -/
structure State where
  queue : List Notification
  displayed : List Notification
  history : List Notification
  pause_display : Bool
  visible : Bool
  timeout_cnt : Int
  next_timeout : Int
  next_id : Nat
  log : List Event

/-- State of `dunst_main` after the three `g_queue_new` calls. -/
def init : State :=
  { queue := [], displayed := [], history := [], pause_display := false,
    visible := false, timeout_cnt := 0, next_timeout := 0, next_id := 1, log := [] }

/-! ## Machine integers -/

/-- Value of `G_MAXINT64`. -/
def G_MAXINT64 : Int := 9223372036854775807

/-- Value of `G_USEC_PER_SEC`. -/
def G_USEC_PER_SEC : Int := 1000000

/-- Reduction of an integer to the `gint64` range, two-complement. -/
def wrap64 (x : Int) : Int := (x + 9223372036854775808) % 18446744073709551616 - 9223372036854775808

/-- Subtraction of `gint64` values. -/
def i64_sub (a b : Int) : Int := wrap64 (a - b)

/-- Addition of `gint64` values. -/
def i64_add (a b : Int) : Int := wrap64 (a + b)

/-! ## GLib queue operations -/

/-- GLib `g_queue_insert_sorted`: `data` goes before the first element `x` for
which `func x data < 0` fails, at the tail when there is none. -/
def g_queue_insert_sorted (func : Notification → Notification → Int) :
    List Notification → Notification → List Notification
  | [], data => [data]
  | x :: rest, data =>
    if func x data < 0 then x :: g_queue_insert_sorted func rest data
    else data :: x :: rest

/-- The ids of the notifications of a queue, head first. -/
def ids (q : List Notification) : List Nat := q.map (fun n => n.id)

/-- The first record of a queue with the given id (pointer lookup). -/
def lookup (q : List Notification) (i : Nat) : Option Notification :=
  q.find? (fun m => m.id == i)

/-- GLib `g_queue_remove`: removes the first link that holds the pointer. -/
def g_queue_remove (q : List Notification) (i : Nat) : List Notification :=
  q.eraseP (fun m => m.id == i)

/-! ## History -/

/-- Source `history_push` (lines 156-165).  The `guint` length is compared with
`history_length` only when the latter is positive; popping the head of an
empty history gives `NULL`, which `notification_free` ignores. -/
def history_push (env : Env) (s : State) (n : Notification) : State :=
  let s1 :=
    if env.settings.history_length > 0 ∧
        (s.history.length : Int) ≥ env.settings.history_length then
      match s.history with
      | [] => s
      | to_free :: rest => { s with history := rest, log := s.log ++ [Event.free to_free] }
    else s
  if !n.history_ignore then { s1 with history := s1.history ++ [n] } else s1

/-- Modelled from the spec: `notification_close` lives in `notification.c`,
which is not part of the sources at hand.  Following `close(n, reasonCode)`
of the spec it removes the notification from whichever of `displayed` and
`queue` holds it and hands it to `history_push`; closing a notification that
is in neither queue is a silent no-op.  The close is recorded in the log. -/
def notification_close (env : Env) (s : State) (i : Nat) (reason : Int) : State :=
  match lookup s.displayed i with
  | some n =>
    history_push env
      { s with displayed := g_queue_remove s.displayed i,
               log := s.log ++ [Event.closed n reason] } n
  | none =>
    match lookup s.queue i with
    | some n =>
      history_push env
        { s with queue := g_queue_remove s.queue i,
                 log := s.log ++ [Event.closed n reason] } n
    | none => s

/-! ## Expiry pass -/

/-- The assignment `n->start = v` for a notification held by `displayed`. -/
def set_start (s : State) (i : Nat) (v : Int) : State :=
  { s with displayed := s.displayed.map (fun m => if m.id = i then { m with start := v } else m) }

/-- The `while (iter)` loop of `check_timeouts` (lines 57-82): `iter` is the
part of the list that is still to be visited.  Each step touches the visited
notification only, so on a queue of distinct notifications the records of
`iter` are the ones the state holds when they are visited. -/
def check_timeouts_loop (env : Env) (now : Int) (idle : Bool) :
    List Notification → State → State
  | [], s => s
  | n :: iter, s =>
    if idle && !n.transient then
      check_timeouts_loop env now idle iter (set_start s n.id now)
    else if n.start = 0 ∨ n.timeout = 0 then
      check_timeouts_loop env now idle iter s
    else if i64_sub now n.start > n.timeout then
      check_timeouts_loop env now idle iter (notification_close env s n.id 1)
    else
      check_timeouts_loop env now idle iter s

/-- Source `check_timeouts` (lines 50-83). -/
def check_timeouts (env : Env) (now : Int) (idle : Bool) (s : State) : State :=
  if s.displayed.length = 0 then s
  else check_timeouts_loop env now idle s.displayed s

/-! ## Scheduling pass -/

/-- The pause loop of `update_lists` (lines 92-95): every displayed
notification is popped from the head and inserted, sorted, into `queue`. -/
def pause_loop (env : Env) : List Notification → State → State
  | [], s => s
  | n :: rest, s =>
    pause_loop env rest
      { s with displayed := rest,
               queue := g_queue_insert_sorted env.notification_cmp_data s.queue n }

/-- The value of `limit` computed by `update_lists` (lines 99-107). -/
def limit_of (env : Env) : Int :=
  if env.geometry_h = 0 then 0
  else if env.geometry_h = 1 then 1
  else if env.settings.indicate_hidden then env.geometry_h - 1
  else env.geometry_h

/-- The promotion loop of `update_lists` (lines 110-128); the list argument is
the content of `queue` at the loop head.  The `return` of line 120 is never
taken: `g_queue_pop_head` of a queue of positive length gives a
notification.  The comparison of the `guint` length with `limit` happens only
for a positive `limit`. -/
def promote_loop (env : Env) (now : Int) (limit : Int) : List Notification → State → State
  | [], s => s
  | n :: rest, s =>
    if limit > 0 ∧ (s.displayed.length : Int) ≥ limit then s
    else
      let n1 : Notification := { n with start := now }
      let s1 : State := { s with queue := rest }
      let s2 : State :=
        if !n1.redisplayed && n1.script then
          { s1 with log := s1.log ++ [Event.run_script n1.id] }
        else s1
      promote_loop env now limit rest
        { s2 with displayed := g_queue_insert_sorted env.notification_cmp_data s2.displayed n1 }

/-- Source `update_lists` (lines 85-129). -/
def update_lists (env : Env) (now : Int) (idle : Bool) (s : State) : State :=
  let s1 := check_timeouts env now idle s
  if s1.pause_display then pause_loop env s1.displayed s1
  else promote_loop env now (limit_of env) s1.queue s1

/-! ## Sleep computation -/

/-- The `for` loop of `get_sleep_time` (lines 177-199) followed by the final
`return` (line 201); `sleep` is the running minimum. -/
def get_sleep_time_loop (env : Env) (time : Int) : List Notification → Int → Int
  | [], sleep => if sleep ≠ G_MAXINT64 then sleep else -1
  | n :: iter, sleep =>
    let ttl := i64_sub n.timeout (i64_sub time n.start)
    if n.timeout > 0 ∧ ¬ ttl > 0 then 0
    else
      let sleep1 := if n.timeout > 0 then min sleep ttl else sleep
      let sleep2 :=
        if env.settings.show_age_threshold ≥ 0 then
          let age := i64_sub time n.timestamp
          if age > env.settings.show_age_threshold then
            min sleep1 (G_USEC_PER_SEC - Int.tmod age G_USEC_PER_SEC)
          else if ttl > env.settings.show_age_threshold then
            min sleep1 env.settings.show_age_threshold
          else sleep1
        else sleep1
      get_sleep_time_loop env time iter sleep2

/-- Source `get_sleep_time` (lines 172-202), on the displayed queue. -/
def get_sleep_time (env : Env) (time : Int) (displayed : List Notification) : Int :=
  get_sleep_time_loop env time displayed G_MAXINT64

/-! ## The tick -/

/-- Modelled from the spec: `x_win_show` lives in `x11/x.c`, which is not part
of the sources at hand; a show request makes the display visible. -/
def x_win_show (s : State) : State :=
  { s with visible := true, log := s.log ++ [Event.win_show] }

/-- Modelled from the spec: `x_win_hide` lives in `x11/x.c`, which is not part
of the sources at hand; a hide request makes the display not visible. -/
def x_win_hide (s : State) : State :=
  { s with visible := false, log := s.log ++ [Event.win_hide] }

/-- The call `x_win_draw()`: recorded, no effect on the scheduler state. -/
def x_win_draw (s : State) : State :=
  { s with log := s.log ++ [Event.win_draw] }

/-- Lines 227-237 of `run`: the timer is armed when the guard allows it.  The
first argument of `g_timeout_add` is a `guint`. -/
def arm_timer (env : Env) (now : Int) (s : State) : State :=
  let sleep := get_sleep_time env now s.displayed
  let timeout_at := i64_add now sleep
  if sleep ≥ 0 then
    if s.timeout_cnt = 0 ∨ timeout_at < s.next_timeout then
      { s with log := s.log ++ [Event.timeout_add (Int.tdiv sleep 1000 % 4294967296) timeout_at],
               next_timeout := timeout_at,
               timeout_cnt := s.timeout_cnt + 1 }
    else s
  else s

/-- Lines 210-212 of `run`: the callback of a timer gives its count back. -/
def run_timer_fired (data : Bool) (s : State) : State :=
  if data ∧ s.timeout_cnt > 0 then { s with timeout_cnt := s.timeout_cnt - 1 } else s

/-- Lines 214-216 of `run`. -/
def run_show (s : State) : State :=
  if s.displayed.length > 0 ∧ ¬ s.visible ∧ ¬ s.pause_display then x_win_show s else s

/-- Lines 218-220 of `run`. -/
def run_hide (s : State) : State :=
  if s.visible ∧ (s.pause_display ∨ s.displayed.length = 0) then x_win_hide s else s

/-- Lines 222-224 of `run`. -/
def run_draw (s : State) : State :=
  if s.visible then x_win_draw s else s

/-- Lines 226-238 of `run`. -/
def run_arm (env : Env) (now : Int) (s : State) : State :=
  if s.visible then arm_timer env now s else s

/-- Source `run` (lines 204-242); `data` is `true` when the argument is not
`NULL`, which is the case exactly for the callback of an armed timer. -/
def run (env : Env) (data : Bool) (now : Int) (idle : Bool) (s : State) : State :=
  run_arm env now
    (run_draw (run_hide (run_show (run_timer_fired data (update_lists env now idle s)))))

/-- Source `wake_up` (lines 167-170). -/
def wake_up (env : Env) (now : Int) (idle : Bool) (s : State) : State :=
  run env false now idle s

/-- Source `pause_signal` (lines 244-250). -/
def pause_signal (env : Env) (now : Int) (idle : Bool) (s : State) : State :=
  wake_up env now idle { s with pause_display := true }

/-- Source `unpause_signal` (lines 252-258). -/
def unpause_signal (env : Env) (now : Int) (idle : Bool) (s : State) : State :=
  wake_up env now idle { s with pause_display := false }

/-- Source `history_pop` (lines 142-154). -/
def history_pop (env : Env) (now : Int) (idle : Bool) (s : State) : State :=
  match s.history.getLast? with
  | none => s
  | some n =>
    let n1 : Notification :=
      { n with redisplayed := true, start := 0,
               timeout := if env.settings.sticky_history then 0 else n.timeout }
    wake_up env now idle { s with history := s.history.dropLast, queue := n1 :: s.queue }

/-- First loop of `move_all_to_history` (lines 133-135), with a bound on the
number of iterations. -/
def move_displayed (env : Env) : Nat → State → State
  | 0, s => s
  | fuel + 1, s =>
    match s.displayed with
    | [] => s
    | n :: _ => move_displayed env fuel (notification_close env s n.id 2)

/-- Second loop of `move_all_to_history` (lines 137-139), with a bound on the
number of iterations. -/
def move_queue (env : Env) : Nat → State → State
  | 0, s => s
  | fuel + 1, s =>
    match s.queue with
    | [] => s
    | n :: _ => move_queue env fuel (notification_close env s n.id 2)

/-- Source `move_all_to_history` (lines 131-140).  Each iteration closes the
head of the queue it drains, so the length of the queue bounds the number of
iterations. -/
def move_all_to_history (env : Env) (s : State) : State :=
  let s1 := move_displayed env s.displayed.length s
  move_queue env s1.queue.length s1

/-- Modelled from the spec: notification creation lives in `notification.c`,
which is not part of the sources at hand.  Following `enqueuePending(n)` and
the identity rule of the spec, the new notification gets an id that was never
used before and is inserted into `queue` at its sorted position. -/
def notification_init (env : Env) (s : State) (n : Notification) : State :=
  { s with queue := g_queue_insert_sorted env.notification_cmp_data s.queue
                      { n with id := s.next_id },
           next_id := s.next_id + 1 }

/-! ## Runs of the system -/

/-- The events the scheduler reacts to. -/
inductive Op where
  | enqueue (n : Notification)
  | tick (data : Bool) (now : Int) (idle : Bool)
  | close (id : Nat) (reason : Int)
  | recall_last (now : Int) (idle : Bool)
  | close_all
  | pause (now : Int) (idle : Bool)
  | unpause (now : Int) (idle : Bool)

/-- Effect of one event on the state. -/
def step (env : Env) (s : State) : Op → State
  | Op.enqueue n => notification_init env s n
  | Op.tick data now idle => run env data now idle s
  | Op.close i reason => notification_close env s i reason
  | Op.recall_last now idle => history_pop env now idle s
  | Op.close_all => move_all_to_history env s
  | Op.pause now idle => pause_signal env now idle s
  | Op.unpause now idle => unpause_signal env now idle s

/-- The state reached from `init` by a sequence of events. -/
def reach (env : Env) (ops : List Op) : State := ops.foldl (step env) init

/-! ## The main loop and its timers -/

/-- The `g_timeout_add` calls recorded in a log, in call order, each with its
interval in milliseconds and the deadline `now + sleep` it was armed for. -/
def timers_of (log : List Event) : List (Int × Int) :=
  log.filterMap (fun e => match e with
    | Event.timeout_add interval deadline => some (interval, deadline)
    | _ => none)

/-- The deadlines of the timers armed between two states of one execution. -/
def new_timers (before after : State) : List Int :=
  ((timers_of after.log).drop (timers_of before.log).length).map (fun p => p.2)

/-- The scheduler together with the GLib main loop: `armed` holds the deadlines
of the timers that were armed by `g_timeout_add` and have not fired yet, in
arming order.  `run` returns `false`, so every timer fires once. -/
structure Loop where
  st : State
  armed : List Int

/-- What the main loop dispatches: an event that reaches the scheduler out of
band, or the expiry of the armed timer at position `k`. -/
inductive LoopEv where
  | op (o : Op)
  | fire (k : Nat) (now : Int) (idle : Bool)

/-- One dispatch of the main loop.  The expiry of an armed timer removes it
and calls `run` with non-null data; a timer that is not armed does not fire.
Any other event runs as in `step` and is never a call of `run` with non-null
data.  The timers armed during the dispatch join `armed`. -/
def loop_step (env : Env) (l : Loop) : LoopEv → Loop
  | LoopEv.fire k now idle =>
    if k < l.armed.length then
      { st := run env true now idle l.st,
        armed := l.armed.eraseIdx k ++ new_timers l.st (run env true now idle l.st) }
    else l
  | LoopEv.op (Op.tick true _ _) => l
  | LoopEv.op o =>
    { st := step env l.st o, armed := l.armed ++ new_timers l.st (step env l.st o) }

/-- The main loop state reached from the initial state, no timer armed. -/
def loop_reach (env : Env) (evs : List LoopEv) : Loop :=
  evs.foldl (loop_step env) { st := init, armed := [] }

/-- Events that `check_timeouts` can cause: a close and the eviction that
`history_push` may perform for it. -/
def is_close_event : Event → Bool
  | Event.free _ => true
  | Event.closed _ _ => true
  | _ => false

/-! ## Vocabulary of the statements -/

/-- The close calls recorded in a log, in call order, each with its reason. -/
def closes_of (log : List Event) : List (Notification × Int) :=
  log.filterMap (fun e => match e with
    | Event.closed n reason => some (n, reason)
    | _ => none)

/-- Spec, expiry pass, rules 2 and 3: the notification has been shown, is not
sticky, and its time on display exceeds its timeout. -/
def overdue (now : Int) (n : Notification) : Bool :=
  decide (n.start ≠ 0 ∧ n.timeout ≠ 0 ∧ i64_sub now n.start > n.timeout)

/-- Spec, expiry pass, rule 1: the countdown of the notification is frozen
(the user is idle and the notification is not transient). -/
def frozen (idle : Bool) (n : Notification) : Bool := idle && !n.transient

/-- Spec, expiry pass: the notification is closed by the pass (it is not
frozen and it is overdue). -/
def expires (now : Int) (idle : Bool) (n : Notification) : Bool :=
  !frozen idle n && overdue now n

/-- Spec, expiry pass, rule 1: a frozen notification gets `start = now`, any
other notification is left as it is. -/
def refresh (now : Int) (idle : Bool) (n : Notification) : Notification :=
  if frozen idle n then { n with start := now } else n

/-- The ids of the notifications that left the system according to a log: the
ones freed on eviction from the history and the ones closed with
`history_ignore` set. -/
def gone_of (log : List Event) : List Nat :=
  log.filterMap (fun e => match e with
    | Event.free n => some n.id
    | Event.closed n _ => if n.history_ignore then some n.id else none
    | _ => none)

/-- The multiset union of the three queues, as ids. -/
def live_ids (s : State) : Multiset Nat :=
  (ids s.queue : Multiset Nat) + (ids s.displayed : Multiset Nat) + (ids s.history : Multiset Nat)

/-- The multiset of the ids that left the system. -/
def gone_ids (s : State) : Multiset Nat := (gone_of s.log : Multiset Nat)

/-! ## Concrete scenarios -/

/-- Comparator of the concrete scenarios: higher urgency first, then lower id. -/
def cmp_urgency_id (a b : Notification) : Int :=
  if a.urgency ≠ b.urgency then b.urgency - a.urgency else (a.id : Int) - (b.id : Int)

/-- Notification of the concrete scenarios: non-transient, never recalled, kept
in the history on close, without a script. -/
def mk_notification (i : Nat) (start timeout timestamp : Int) : Notification :=
  { id := i, start := start, timeout := timeout, timestamp := timestamp, transient := false,
    redisplayed := false, history_ignore := false, script := false, urgency := 1 }

/-- Environment of the concrete scenarios: history length `len`, age threshold
`age`, layout height `h`, no hidden indicator, no sticky history. -/
def mk_env (len age h : Int) : Env :=
  { settings := { history_length := len, indicate_hidden := false, sticky_history := false,
                  show_age_threshold := age },
    geometry_h := h, notification_cmp_data := cmp_urgency_id }

/-- State of the concrete scenarios: the given queues, nothing else set. -/
def mk_state (queue displayed history : List Notification) : State :=
  { init with queue := queue, displayed := displayed, history := history }

/-- Main loop events of the timer scenarios: a notification with timeout 5000
arrives and is shown by a tick at 1000 (timer for 6000); two more, with
timeouts 2000 and 3000, arrive and are shown by a second tick at 1000 (timer
for the earlier deadline 3000). -/
def three_timeouts : List LoopEv :=
  [LoopEv.op (Op.enqueue (mk_notification 0 0 5000 0)), LoopEv.op (Op.tick false 1000 false),
   LoopEv.op (Op.enqueue (mk_notification 0 0 2000 0)),
   LoopEv.op (Op.enqueue (mk_notification 0 0 3000 0)), LoopEv.op (Op.tick false 1000 false)]

/-! ## Theorems -/

/-- In the `gint64` range the reduction `wrap64` is the identity. -/
theorem wrap64_of_range (x : Int) (h1 : -9223372036854775808 ≤ x)
    (h2 : x ≤ 9223372036854775807) : wrap64 x = x := by
  unfold wrap64
  omega

/-! ### C1: the first-display script -/

/-- C1, evaluated on the code: a notification with a script is enqueued and
promoted by a tick (first run of the script), demoted by `pause_signal` and
promoted again by `unpause_signal`; `update_lists` then calls
`notification_run_script` for it a second time. -/
theorem C1_script_runs_again_after_unpause :
    (reach (mk_env 0 (-1) 3)
        [Op.enqueue { mk_notification 0 0 5000000 0 with script := true },
         Op.tick false 1 false]).log.count (Event.run_script 1) = 1 ∧
    (reach (mk_env 0 (-1) 3)
        [Op.enqueue { mk_notification 0 0 5000000 0 with script := true },
         Op.tick false 1 false, Op.pause 2 false,
         Op.unpause 3 false]).log.count (Event.run_script 1) = 2 := by
  decide

/-! ### C4, C5: the history -/

/-- C4: with `history_length > 0`, a history that is not over the bound and a
notification without `history_ignore`, `history_push` appends the notification
at the tail, drops exactly the head when the history was full, keeps the order
of the rest, and the result is again within the bound. -/
theorem C4_history_push_evicts_oldest (env : Env) (s : State) (n : Notification)
    (hL : 0 < env.settings.history_length)
    (hlen : (s.history.length : Int) ≤ env.settings.history_length)
    (hn : n.history_ignore = false) :
    (history_push env s n).history =
        (if (s.history.length : Int) < env.settings.history_length then s.history ++ [n]
         else s.history.tail ++ [n]) ∧
      ((history_push env s n).history.length : Int) ≤ env.settings.history_length := by
  unfold history_push
  by_cases hfull : (s.history.length : Int) < env.settings.history_length
  · have h1 : ¬ (env.settings.history_length > 0 ∧
        (s.history.length : Int) ≥ env.settings.history_length) := by omega
    simp only [h1, hn, hfull, if_false, if_true, Bool.not_false]
    constructor
    · trivial
    · simp; omega
  · have h1 : (env.settings.history_length > 0 ∧
        (s.history.length : Int) ≥ env.settings.history_length) := by omega
    cases hh : s.history with
    | nil => simp [hh] at hfull; omega
    | cons a rest =>
      simp only [hh, List.length_cons] at h1 hfull hlen
      simp only [hh, List.length_cons, h1, hn, hfull, and_self, if_true, if_false,
        Bool.not_false, List.tail_cons]
      constructor
      · trivial
      · simp
        push_cast at hlen
        omega

/-- C4, the eviction scenario: with `history_length = 2`, pushing A, B, C onto
an empty history ends as [B, C]; the last push is an instance of the theorem. -/
theorem C4_history_push_evicts_oldest_witness :
    (history_push (mk_env 2 (-1) 3)
        (history_push (mk_env 2 (-1) 3)
          (history_push (mk_env 2 (-1) 3) (mk_state [] [] []) (mk_notification 1 0 0 0))
          (mk_notification 2 0 0 0))
        (mk_notification 3 0 0 0)).history
      = [mk_notification 2 0 0 0, mk_notification 3 0 0 0] ∧
    ((history_push (mk_env 2 (-1) 3)
        (mk_state [] [] [mk_notification 1 0 0 0, mk_notification 2 0 0 0])
        (mk_notification 3 0 0 0)).history =
        (if ((mk_state [] [] [mk_notification 1 0 0 0, mk_notification 2 0 0 0]).history.length : Int)
            < (mk_env 2 (-1) 3).settings.history_length
         then (mk_state [] [] [mk_notification 1 0 0 0, mk_notification 2 0 0 0]).history
                ++ [mk_notification 3 0 0 0]
         else (mk_state [] [] [mk_notification 1 0 0 0, mk_notification 2 0 0 0]).history.tail
                ++ [mk_notification 3 0 0 0]) ∧
      ((history_push (mk_env 2 (-1) 3)
        (mk_state [] [] [mk_notification 1 0 0 0, mk_notification 2 0 0 0])
        (mk_notification 3 0 0 0)).history.length : Int)
        ≤ (mk_env 2 (-1) 3).settings.history_length) :=
  ⟨by decide,
   C4_history_push_evicts_oldest (mk_env 2 (-1) 3)
     (mk_state [] [] [mk_notification 1 0 0 0, mk_notification 2 0 0 0])
     (mk_notification 3 0 0 0) (by decide) (by decide) (by decide)⟩

/-- C5, evaluated on the code: with `history_length = 1` and a history that
holds A, pushing a notification with `history_ignore` set evicts A (it is
freed) and leaves the history empty, although nothing is pushed. -/
theorem C5_history_push_ignored_still_evicts :
    (history_push (mk_env 1 (-1) 3) (mk_state [] [] [mk_notification 1 0 0 0])
        { mk_notification 2 0 0 0 with history_ignore := true }).history = [] ∧
    (history_push (mk_env 1 (-1) 3) (mk_state [] [] [mk_notification 1 0 0 0])
        { mk_notification 2 0 0 0 with history_ignore := true }).log
      = [Event.free (mk_notification 1 0 0 0)] := by
  decide

/-! ### C8: the sleep computation -/

/-- Left fold of `min`: the result is below the start value. -/
theorem foldl_min_le_init (l : List Int) (a : Int) : l.foldl min a ≤ a := by
  induction l generalizing a with
  | nil => simp
  | cons x xs ih =>
    simp only [List.foldl_cons]
    exact le_trans (ih (min a x)) (min_le_left a x)

/-- Left fold of `min`: the result is below every element. -/
theorem foldl_min_le_mem (l : List Int) (a : Int) : ∀ x ∈ l, l.foldl min a ≤ x := by
  induction l generalizing a with
  | nil => simp
  | cons y ys ih =>
    intro x hx
    simp only [List.foldl_cons]
    rcases List.mem_cons.mp hx with h | h
    · subst h
      exact le_trans (foldl_min_le_init ys (min a x)) (min_le_right a x)
    · exact ih (min a y) x h

/-- Left fold of `min`: the result is the start value or an element. -/
theorem foldl_min_mem (l : List Int) (a : Int) : l.foldl min a = a ∨ l.foldl min a ∈ l := by
  induction l generalizing a with
  | nil => simp
  | cons y ys ih =>
    simp only [List.foldl_cons]
    rcases ih (min a y) with h | h
    · rcases min_choice a y with h2 | h2
      · left; rw [h, h2]
      · right; rw [h, h2]; exact List.mem_cons_self _ _
    · right; exact List.mem_cons_of_mem _ h

/-- With start times in the past and timeouts in range, the time to live is
computed without overflow. -/
theorem ttl_in_range (now : Int) (n : Notification) (hnow : now ≤ G_MAXINT64)
    (h : 0 ≤ n.start ∧ n.start ≤ now ∧ 0 ≤ n.timeout ∧ n.timeout < 4611686018427387904) :
    i64_sub n.timeout (i64_sub now n.start) = n.timeout - (now - n.start) := by
  unfold G_MAXINT64 at hnow
  unfold i64_sub
  rw [wrap64_of_range (now - n.start) (by omega) (by omega)]
  exact wrap64_of_range _ (by omega) (by omega)

/-- An overdue notification makes the loop of `get_sleep_time` return 0. -/
theorem get_sleep_time_loop_overdue (env : Env) (now : Int) (l : List Notification) (sleep : Int)
    (h : ∃ n ∈ l, n.timeout > 0 ∧ ¬ i64_sub n.timeout (i64_sub now n.start) > 0) :
    get_sleep_time_loop env now l sleep = 0 := by
  induction l generalizing sleep with
  | nil => simp at h
  | cons m ms ih =>
    unfold get_sleep_time_loop
    by_cases hm : m.timeout > 0 ∧ ¬ i64_sub m.timeout (i64_sub now m.start) > 0
    · simp only [hm, and_self, not_false_eq_true, if_true]
    · simp only [hm, if_false]
      apply ih
      obtain ⟨n, hn, hn2⟩ := h
      rcases List.mem_cons.mp hn with h1 | h1
      · subst h1; exact absurd hn2 hm
      · exact ⟨n, h1, hn2⟩

/-- Without an age threshold and without an overdue notification, the loop of
`get_sleep_time` computes the minimum of the running value and the times to
live of the timed notifications. -/
theorem get_sleep_time_loop_min (env : Env) (now : Int) (l : List Notification) (sleep : Int)
    (hage : env.settings.show_age_threshold < 0)
    (h : ∀ n ∈ l, ¬ (n.timeout > 0 ∧ ¬ i64_sub n.timeout (i64_sub now n.start) > 0)) :
    get_sleep_time_loop env now l sleep =
      (if ((l.filter (fun n => decide (n.timeout > 0))).map
            (fun n => i64_sub n.timeout (i64_sub now n.start))).foldl min sleep ≠ G_MAXINT64
       then ((l.filter (fun n => decide (n.timeout > 0))).map
            (fun n => i64_sub n.timeout (i64_sub now n.start))).foldl min sleep
       else -1) := by
  induction l generalizing sleep with
  | nil => simp [get_sleep_time_loop]
  | cons m ms ih =>
    unfold get_sleep_time_loop
    have hm := h m (List.mem_cons_self _ _)
    have hage2 : ¬ env.settings.show_age_threshold ≥ 0 := by omega
    simp only [hm, hage2, if_false]
    rw [ih _ (fun n hn => h n (List.mem_cons_of_mem _ hn))]
    by_cases ht : m.timeout > 0
    · simp [ht, List.filter_cons]
    · simp [ht, List.filter_cons]

/-- C8: with the age threshold disabled and values in range, `get_sleep_time`
returns 0 when some timed notification is overdue (`ttl <= 0`); otherwise it
returns -1 when no displayed notification has `timeout > 0`, and else the
minimum `ttl` over the displayed notifications with `timeout > 0` (it is the
`ttl` of one of them and below the `ttl` of each). -/
theorem C8_sleep_correctness (env : Env) (now : Int) (displayed : List Notification)
    (hage : env.settings.show_age_threshold < 0)
    (hnow : now ≤ G_MAXINT64)
    (hr : ∀ n ∈ displayed,
      0 ≤ n.start ∧ n.start ≤ now ∧ 0 ≤ n.timeout ∧ n.timeout < 4611686018427387904) :
    ((∃ n ∈ displayed, n.timeout > 0 ∧ n.timeout - (now - n.start) ≤ 0) →
        get_sleep_time env now displayed = 0) ∧
    ((¬ ∃ n ∈ displayed, n.timeout > 0 ∧ n.timeout - (now - n.start) ≤ 0) →
        ((∀ n ∈ displayed, ¬ n.timeout > 0) → get_sleep_time env now displayed = -1) ∧
        ((∃ n ∈ displayed, n.timeout > 0) →
          (∃ n ∈ displayed, n.timeout > 0 ∧
              get_sleep_time env now displayed = n.timeout - (now - n.start)) ∧
          (∀ n ∈ displayed, n.timeout > 0 →
              get_sleep_time env now displayed ≤ n.timeout - (now - n.start)))) := by
  constructor
  · rintro ⟨n, hn, ht, hover⟩
    apply get_sleep_time_loop_overdue
    refine ⟨n, hn, ht, ?_⟩
    rw [ttl_in_range now n hnow (hr n hn)]
    omega
  · intro hno
    have hno2 : ∀ n ∈ displayed,
        ¬ (n.timeout > 0 ∧ ¬ i64_sub n.timeout (i64_sub now n.start) > 0) := by
      intro n hn hc
      apply hno
      refine ⟨n, hn, hc.1, ?_⟩
      have := hc.2
      rw [ttl_in_range now n hnow (hr n hn)] at this
      omega
    have hmap : (displayed.filter (fun n => decide (n.timeout > 0))).map
          (fun n => i64_sub n.timeout (i64_sub now n.start)) =
        (displayed.filter (fun n => decide (n.timeout > 0))).map
          (fun n => n.timeout - (now - n.start)) := by
      apply List.map_congr_left
      intro n hn
      exact ttl_in_range now n hnow (hr n (List.mem_of_mem_filter hn))
    unfold get_sleep_time
    rw [get_sleep_time_loop_min env now displayed G_MAXINT64 hage hno2, hmap]
    constructor
    · intro hall
      have : displayed.filter (fun n => decide (n.timeout > 0)) = [] := by
        rw [List.filter_eq_nil_iff]
        intro n hn
        simpa using hall n hn
      simp [this]
    · rintro ⟨n0, hn0, ht0⟩
      have hmem0 : n0.timeout - (now - n0.start) ∈
          (displayed.filter (fun n => decide (n.timeout > 0))).map
            (fun n => n.timeout - (now - n.start)) :=
        List.mem_map.mpr ⟨n0, List.mem_filter.mpr ⟨hn0, by simpa using ht0⟩, rfl⟩
      have hle0 := foldl_min_le_mem _ G_MAXINT64 _ hmem0
      have hr0 := hr n0 hn0
      have hne : ((displayed.filter (fun n => decide (n.timeout > 0))).map
            (fun n => n.timeout - (now - n.start))).foldl min G_MAXINT64 ≠ G_MAXINT64 := by
        unfold G_MAXINT64 at hle0 ⊢
        omega
      rw [if_pos hne]
      constructor
      · rcases foldl_min_mem ((displayed.filter (fun n => decide (n.timeout > 0))).map
            (fun n => n.timeout - (now - n.start))) G_MAXINT64 with h | h
        · exact absurd h hne
        · obtain ⟨n, hn, hnv⟩ := List.mem_map.mp h
          have hn2 := List.mem_filter.mp hn
          exact ⟨n, hn2.1, by simpa using hn2.2, hnv.symm⟩
      · intro n hn ht
        apply foldl_min_le_mem
        exact List.mem_map.mpr ⟨n, List.mem_filter.mpr ⟨hn, by simpa using ht⟩, rfl⟩

/-- C8, the scenario: one notification with timeout 5_000_000 started at 0,
sampled at 3_000_000, gives a sleep of 2_000_000. -/
theorem C8_sleep_correctness_witness :
    get_sleep_time (mk_env 0 (-1) 3) 3000000 [mk_notification 1 0 5000000 0] = 2000000 ∧
    get_sleep_time (mk_env 0 (-1) 3) 3000000 [mk_notification 1 0 5000000 0]
      ≤ (mk_notification 1 0 5000000 0).timeout - (3000000 - (mk_notification 1 0 5000000 0).start) :=
  ⟨by decide,
   (((C8_sleep_correctness (mk_env 0 (-1) 3) 3000000 [mk_notification 1 0 5000000 0]
      (by decide) (by decide) (by decide)).2 (by decide)).2
      ⟨mk_notification 1 0 5000000 0, by decide, by decide⟩).2
      (mk_notification 1 0 5000000 0) (by decide) (by decide)⟩

/-! ### C9: the no-wake sentinel -/

/-- C9 as stated fails: with the age threshold set to 0, a single sticky
notification created at 0 and sampled at 1 makes `get_sleep_time` return
999999 (the time to the next full second of its age), not -1. -/
theorem C9_sticky_with_age_rule_wakes :
    (∀ n ∈ [mk_notification 1 0 0 0], n.timeout = 0) ∧
    get_sleep_time (mk_env 0 0 3) 1 [mk_notification 1 0 0 0] = 999999 := by
  decide

/-- A notification that is sticky and on which the age rule yields no
candidate leaves the running minimum of `get_sleep_time` unchanged. -/
theorem get_sleep_time_loop_no_candidate (env : Env) (now : Int) (l : List Notification)
    (sleep : Int)
    (h : ∀ n ∈ l, n.timeout = 0 ∧
      (env.settings.show_age_threshold < 0 ∨
        (i64_sub now n.timestamp ≤ env.settings.show_age_threshold ∧
         i64_sub n.timeout (i64_sub now n.start) ≤ env.settings.show_age_threshold))) :
    get_sleep_time_loop env now l sleep = (if sleep ≠ G_MAXINT64 then sleep else -1) := by
  induction l generalizing sleep with
  | nil => simp [get_sleep_time_loop]
  | cons m ms ih =>
    unfold get_sleep_time_loop
    obtain ⟨h0, hT⟩ := h m (List.mem_cons_self _ _)
    have ht : ¬ m.timeout > 0 := by omega
    simp only [ht, false_and, if_false]
    rw [ih _ (fun n hn => h n (List.mem_cons_of_mem _ hn))]
    rcases hT with hT | ⟨hT1, hT2⟩
    · have : ¬ env.settings.show_age_threshold ≥ 0 := by omega
      simp only [this, if_false]
    · have h1 : ¬ i64_sub now m.timestamp > env.settings.show_age_threshold := by omega
      have h2 : ¬ i64_sub m.timeout (i64_sub now m.start) > env.settings.show_age_threshold := by
        omega
      simp only [h1, h2, if_false, ite_self]

/-- C9, amended: when every displayed notification is sticky and the age rule
yields no candidate for it (the threshold is disabled, or the age and the
time to live computed by the code are both within the threshold),
`get_sleep_time` returns -1; in particular on an empty displayed queue. -/
theorem C9_no_wake_sentinel (env : Env) (now : Int) (displayed : List Notification)
    (h : ∀ n ∈ displayed, n.timeout = 0 ∧
      (env.settings.show_age_threshold < 0 ∨
        (i64_sub now n.timestamp ≤ env.settings.show_age_threshold ∧
         i64_sub n.timeout (i64_sub now n.start) ≤ env.settings.show_age_threshold))) :
    get_sleep_time env now displayed = -1 := by
  unfold get_sleep_time
  rw [get_sleep_time_loop_no_candidate env now displayed G_MAXINT64 h]
  simp

/-- C9, amended, at a concrete input: threshold 5, two sticky notifications of
age 4 and 3 sampled at 7. -/
theorem C9_no_wake_sentinel_witness :
    get_sleep_time (mk_env 0 5 3) 7 [mk_notification 1 3 0 3, mk_notification 2 5 0 4] = -1 :=
  C9_no_wake_sentinel (mk_env 0 5 3) 7 [mk_notification 1 3 0 3, mk_notification 2 5 0 4]
    (by decide)

/-! ### C6, C7: the expiry pass -/

/-- `history_push` does not touch `displayed`. -/
theorem history_push_displayed (env : Env) (s : State) (n : Notification) :
    (history_push env s n).displayed = s.displayed := by
  unfold history_push
  cases s.history <;> (split_ifs <;> rfl)

/-- `history_push` does not touch `queue`. -/
theorem history_push_queue (env : Env) (s : State) (n : Notification) :
    (history_push env s n).queue = s.queue := by
  unfold history_push
  cases s.history <;> (split_ifs <;> rfl)

/-- `history_push` records no close. -/
theorem history_push_closes (env : Env) (s : State) (n : Notification) :
    closes_of (history_push env s n).log = closes_of s.log := by
  unfold history_push
  cases s.history <;> (split_ifs <;> simp [closes_of, List.filterMap_append])

/-- Lookup of a notification whose id does not occur before it. -/
theorem lookup_append_cons (kept iter : List Notification) (n : Notification)
    (h : ∀ m ∈ kept, m.id ≠ n.id) : lookup (kept ++ n :: iter) n.id = some n := by
  induction kept with
  | nil => simp [lookup]
  | cons k ks ih =>
    have hk : k.id ≠ n.id := h k (List.mem_cons_self _ _)
    have := ih (fun m hm => h m (List.mem_cons_of_mem _ hm))
    simp only [lookup] at this ⊢
    simp [List.find?_cons, hk, this]

/-- Removal of a notification whose id does not occur before it. -/
theorem g_queue_remove_append_cons (kept iter : List Notification) (n : Notification)
    (h : ∀ m ∈ kept, m.id ≠ n.id) : g_queue_remove (kept ++ n :: iter) n.id = kept ++ iter := by
  induction kept with
  | nil => simp [g_queue_remove]
  | cons k ks ih =>
    have hk : k.id ≠ n.id := h k (List.mem_cons_self _ _)
    have := ih (fun m hm => h m (List.mem_cons_of_mem _ hm))
    simp only [g_queue_remove] at this ⊢
    simp [List.eraseP_cons, hk, this]

/-- The refresh of the start time keeps the id. -/
theorem refresh_id (now : Int) (idle : Bool) (n : Notification) :
    (refresh now idle n).id = n.id := by
  unfold refresh
  split_ifs <;> rfl

/-- On distinct ids `set_start` changes one record only. -/
theorem set_start_append_cons (s : State) (kept iter : List Notification) (n : Notification) (v : Int)
    (hd : s.displayed = kept ++ n :: iter)
    (h1 : ∀ m ∈ kept, m.id ≠ n.id) (h2 : ∀ m ∈ iter, m.id ≠ n.id) :
    (set_start s n.id v).displayed = kept ++ { n with start := v } :: iter := by
  unfold set_start
  simp only [hd, List.map_append, List.map_cons, if_true]
  congr 1
  · conv_rhs => rw [← List.map_id kept]
    apply List.map_congr_left
    intro m hm
    simp [h1 m hm]
  · congr 1
    conv_rhs => rw [← List.map_id iter]
    apply List.map_congr_left
    intro m hm
    simp [h2 m hm]

/-- Distinct ids around an element of a queue. -/
theorem nodup_ids_split (kept iter : List Notification) (n : Notification)
    (h : (ids (kept ++ n :: iter)).Nodup) :
    (∀ m ∈ kept, m.id ≠ n.id) ∧ (∀ m ∈ iter, m.id ≠ n.id) ∧ (ids (kept ++ iter)).Nodup := by
  unfold ids at h ⊢
  simp only [List.map_append, List.map_cons] at h ⊢
  have h1 := List.nodup_middle.mp h
  rw [List.nodup_cons] at h1
  refine ⟨?_, ?_, h1.2⟩
  · intro m hm he
    apply h1.1
    rw [← he]
    exact List.mem_append_left _ (List.mem_map_of_mem _ hm)
  · intro m hm he
    apply h1.1
    rw [← he]
    exact List.mem_append_right _ (List.mem_map_of_mem _ hm)

/-- The expiry loop on a queue of distinct notifications: the visited part
`iter` loses the notifications that expire, the frozen ones get `start = now`,
the order is kept, `queue` is not touched and the closes are recorded, each
with reason 1, in queue order. -/
theorem check_timeouts_loop_spec (env : Env) (now : Int) (idle : Bool)
    (iter kept : List Notification) (s : State)
    (hd : s.displayed = kept ++ iter) (hnd : (ids (kept ++ iter)).Nodup) :
    (check_timeouts_loop env now idle iter s).displayed =
        kept ++ (iter.filter (fun n => !expires now idle n)).map (refresh now idle) ∧
    (check_timeouts_loop env now idle iter s).queue = s.queue ∧
    closes_of (check_timeouts_loop env now idle iter s).log =
        closes_of s.log ++ (iter.filter (expires now idle)).map (fun n => (n, (1 : Int))) := by
  induction iter generalizing kept s with
  | nil => simp [check_timeouts_loop, hd]
  | cons n iter ih =>
    obtain ⟨h1, h2, h3⟩ := nodup_ids_split kept iter n hnd
    unfold check_timeouts_loop
    by_cases hf : (idle && !n.transient) = true
    · have hfz : frozen idle n = true := hf
      have hex : expires now idle n = false := by simp [expires, hfz]
      have hrf : refresh now idle n = { n with start := now } := by simp [refresh, hfz]
      have hd1 := set_start_append_cons s kept iter n now hd h1 h2
      have hd2 : (set_start s n.id now).displayed = (kept ++ [{ n with start := now }]) ++ iter := by
        rw [hd1]; simp
      have hnd2 : (ids ((kept ++ [{ n with start := now }]) ++ iter)).Nodup := by
        have : ids ((kept ++ [{ n with start := now }]) ++ iter) = ids (kept ++ n :: iter) := by
          simp [ids]
        rw [this]; exact hnd
      obtain ⟨i1, i2, i3⟩ := ih (kept ++ [{ n with start := now }]) (set_start s n.id now) hd2 hnd2
      simp only [hf, if_true]
      refine ⟨?_, ?_, ?_⟩
      · rw [i1]; simp [List.filter_cons, hex, hrf]
      · rw [i2]; rfl
      · rw [i3]; simp [List.filter_cons, hex, set_start]
    · have hfz : frozen idle n = false := by simpa [frozen] using hf
      have hrf : refresh now idle n = n := by simp [refresh, hfz]
      simp only [hf, Bool.false_eq_true, if_false]
      have hkeep : ∀ (hex : expires now idle n = false),
          (check_timeouts_loop env now idle iter s).displayed =
            kept ++ ((n :: iter).filter (fun n => !expires now idle n)).map (refresh now idle) ∧
          (check_timeouts_loop env now idle iter s).queue = s.queue ∧
          closes_of (check_timeouts_loop env now idle iter s).log =
            closes_of s.log ++ ((n :: iter).filter (expires now idle)).map
              (fun n => (n, (1 : Int))) := by
        intro hex
        have hd2 : s.displayed = (kept ++ [n]) ++ iter := by rw [hd]; simp
        have hnd2 : (ids ((kept ++ [n]) ++ iter)).Nodup := by simpa using hnd
        obtain ⟨i1, i2, i3⟩ := ih (kept ++ [n]) s hd2 hnd2
        refine ⟨?_, i2, ?_⟩
        · rw [i1]; simp [List.filter_cons, hex, hrf]
        · rw [i3]; simp [List.filter_cons, hex]
      by_cases hs : n.start = 0 ∨ n.timeout = 0
      · have hex : expires now idle n = false := by
          simp only [expires, overdue, hfz]
          simp
          intro a b
          rcases hs with hs | hs
          · exact absurd hs a
          · exact absurd hs b
        simp only [hs, if_true]
        exact hkeep hex
      · simp only [hs, if_false]
        by_cases ho : i64_sub now n.start > n.timeout
        · have hex : expires now idle n = true := by
            simp only [expires, overdue, hfz]
            simp
            push_neg at hs
            exact ⟨hs.1, hs.2, ho⟩
          simp only [ho, if_true]
          have hl := lookup_append_cons kept iter n h1
          have hrm := g_queue_remove_append_cons kept iter n h1
          have hcl : notification_close env s n.id 1 =
              history_push env { s with displayed := kept ++ iter,
                                        log := s.log ++ [Event.closed n 1] } n := by
            unfold notification_close
            rw [hd, hl, hrm]
          obtain ⟨i1, i2, i3⟩ := ih kept (notification_close env s n.id 1)
            (by rw [hcl, history_push_displayed]) h3
          refine ⟨?_, ?_, ?_⟩
          · rw [i1]; simp [List.filter_cons, hex]
          · rw [i2, hcl, history_push_queue]
          · rw [i3, hcl, history_push_closes]
            simp [List.filter_cons, hex, closes_of, List.filterMap_append]
        · have hex : expires now idle n = false := by
            simp only [expires, overdue, hfz]
            simp
            intro _ _
            omega
          simp only [ho, if_false]
          exact hkeep hex

/-- The expiry pass on a queue of distinct notifications, for either idle
answer: see `check_timeouts_loop_spec`. -/
theorem check_timeouts_spec (env : Env) (now : Int) (idle : Bool) (s : State)
    (hnd : (ids s.displayed).Nodup) :
    (check_timeouts env now idle s).displayed =
        (s.displayed.filter (fun n => !expires now idle n)).map (refresh now idle) ∧
    (check_timeouts env now idle s).queue = s.queue ∧
    closes_of (check_timeouts env now idle s).log =
        closes_of s.log ++ (s.displayed.filter (expires now idle)).map (fun n => (n, (1 : Int))) := by
  unfold check_timeouts
  by_cases h0 : s.displayed.length = 0
  · have : s.displayed = [] := List.length_eq_zero.mp h0
    simp [h0, this]
  · simp only [h0, if_false]
    have := check_timeouts_loop_spec env now idle s.displayed [] s (by simp) (by simpa using hnd)
    simpa using this

/-- Without overflow in `now - start`, the machine test of line 79 is the
comparison of the integers. -/
theorem overdue_iff (now : Int) (n : Notification)
    (h : -9223372036854775808 ≤ now - n.start ∧ now - n.start ≤ 9223372036854775807) :
    overdue now n = true ↔ (n.start ≠ 0 ∧ n.timeout ≠ 0 ∧ now - n.start > n.timeout) := by
  unfold overdue i64_sub
  rw [wrap64_of_range _ h.1 h.2]
  simp

/-- C6: when the user is not idle, `check_timeouts` on a displayed queue of
distinct notifications closes, with reason 1, exactly the notifications with
`start != 0`, `timeout != 0` and `now - start > timeout` (`overdue`, the
subtraction being the one of the machine, which is the one of the integers
whenever it does not overflow); the others stay in `displayed`, in the same
order and unchanged.  A sticky notification (`timeout = 0`) is never closed. -/
theorem C6_expiry_rule (env : Env) (now : Int) (s : State) (hnd : (ids s.displayed).Nodup) :
    (check_timeouts env now false s).displayed
        = s.displayed.filter (fun n => !overdue now n) ∧
    closes_of (check_timeouts env now false s).log
        = closes_of s.log ++ (s.displayed.filter (overdue now)).map (fun n => (n, (1 : Int))) ∧
    (∀ n ∈ s.displayed, n.timeout = 0 → n ∈ (check_timeouts env now false s).displayed) ∧
    (∀ n : Notification,
        -9223372036854775808 ≤ now - n.start ∧ now - n.start ≤ 9223372036854775807 →
        (overdue now n = true ↔ (n.start ≠ 0 ∧ n.timeout ≠ 0 ∧ now - n.start > n.timeout))) := by
  obtain ⟨h1, _, h3⟩ := check_timeouts_spec env now false s hnd
  have he : expires now false = overdue now := by
    funext n; simp [expires, frozen]
  have he2 : (fun n => !expires now false n) = (fun n => !overdue now n) := by
    funext n; simp [expires, frozen]
  have hr : refresh now false = id := by
    funext n; simp [refresh, frozen]
  rw [he2, hr, List.map_id] at h1
  rw [he] at h3
  refine ⟨h1, h3, ?_, fun n h => overdue_iff now n h⟩
  intro n hn ht
  rw [h1]
  apply List.mem_filter.mpr
  refine ⟨hn, ?_⟩
  simp [overdue, ht]

/-- C6 at a concrete input: of four displayed notifications sampled at 10, only
the one started at 2 with timeout 5 is closed; the sticky one, the one still
within its timeout and the one not yet started stay. -/
theorem C6_expiry_rule_witness :
    (check_timeouts (mk_env 0 (-1) 3) 10
        false (mk_state [] [mk_notification 1 2 5 0, mk_notification 2 2 0 0,
                      mk_notification 3 6 5 0, mk_notification 4 0 5 0] [])).displayed
      = [mk_notification 2 2 0 0, mk_notification 3 6 5 0, mk_notification 4 0 5 0] ∧
    closes_of (check_timeouts (mk_env 0 (-1) 3) 10
        false (mk_state [] [mk_notification 1 2 5 0, mk_notification 2 2 0 0,
                      mk_notification 3 6 5 0, mk_notification 4 0 5 0] [])).log
      = [(mk_notification 1 2 5 0, 1)] ∧
    (check_timeouts (mk_env 0 (-1) 3) 10
        false (mk_state [] [mk_notification 1 2 5 0, mk_notification 2 2 0 0,
                      mk_notification 3 6 5 0, mk_notification 4 0 5 0] [])).displayed
      = (mk_state [] [mk_notification 1 2 5 0, mk_notification 2 2 0 0,
                      mk_notification 3 6 5 0, mk_notification 4 0 5 0] []).displayed.filter
          (fun n => !overdue 10 n) :=
  ⟨by decide, by decide,
   (C6_expiry_rule (mk_env 0 (-1) 3) 10
      (mk_state [] [mk_notification 1 2 5 0, mk_notification 2 2 0 0,
                    mk_notification 3 6 5 0, mk_notification 4 0 5 0] []) (by decide)).1⟩

/-- C7: when the user is idle, `check_timeouts` on a displayed queue of
distinct notifications closes no non-transient notification and sets the
start time of every non-transient displayed notification to `now`, whatever
its timeout and previous start time; the transient notifications follow the
expiry rule of the non-idle case. -/
theorem C7_idle_freeze (env : Env) (now : Int) (s : State) (hnd : (ids s.displayed).Nodup) :
    (check_timeouts env now true s).displayed
        = (s.displayed.filter (fun n => !(n.transient && overdue now n))).map
            (fun n => if n.transient then n else { n with start := now }) ∧
    closes_of (check_timeouts env now true s).log
        = closes_of s.log ++
          (s.displayed.filter (fun n => n.transient && overdue now n)).map
            (fun n => (n, (1 : Int))) ∧
    (∀ n ∈ s.displayed, n.transient = false →
        { n with start := now } ∈ (check_timeouts env now true s).displayed) := by
  obtain ⟨h1, _, h3⟩ := check_timeouts_spec env now true s hnd
  have he : expires now true = (fun n => n.transient && overdue now n) := by
    funext n; simp [expires, frozen]
  have he2 : (fun n => !expires now true n) = (fun n => !(n.transient && overdue now n)) := by
    funext n; simp [expires, frozen]
  have hr : refresh now true = (fun n => if n.transient then n else { n with start := now }) := by
    funext n
    cases ht : n.transient <;> simp [refresh, frozen, ht]
  rw [he2, hr] at h1
  rw [he] at h3
  refine ⟨h1, h3, ?_⟩
  intro n hn ht
  rw [h1]
  apply List.mem_map.mpr
  refine ⟨n, List.mem_filter.mpr ⟨hn, by simp [ht]⟩, by simp [ht]⟩

/-- C7, the scenario: timeout 5_000_000, start 0, sampled idle at 10_000_000:
the start time becomes 10_000_000 and nothing is closed. -/
theorem C7_idle_freeze_witness :
    (check_timeouts (mk_env 0 (-1) 3) 10000000 true
        (mk_state [] [mk_notification 1 0 5000000 0] [])).displayed
      = [mk_notification 1 10000000 5000000 0] ∧
    closes_of (check_timeouts (mk_env 0 (-1) 3) 10000000 true
        (mk_state [] [mk_notification 1 0 5000000 0] [])).log = [] ∧
    { mk_notification 1 0 5000000 0 with start := 10000000 } ∈
      (check_timeouts (mk_env 0 (-1) 3) 10000000 true
        (mk_state [] [mk_notification 1 0 5000000 0] [])).displayed :=
  ⟨by decide, by decide,
   (C7_idle_freeze (mk_env 0 (-1) 3) 10000000 (mk_state [] [mk_notification 1 0 5000000 0] [])
      (by decide)).2.2 (mk_notification 1 0 5000000 0) (by decide) (by decide)⟩

/-! ### C10: pause -/

/-- Sorted insertion adds the element and keeps the others. -/
theorem g_queue_insert_sorted_perm (f : Notification → Notification → Int)
    (q : List Notification) (n : Notification) :
    (g_queue_insert_sorted f q n).Perm (n :: q) := by
  induction q with
  | nil => simp [g_queue_insert_sorted]
  | cons x rest ih =>
    unfold g_queue_insert_sorted
    split_ifs
    · exact (List.Perm.cons x ih).trans (List.Perm.swap n x rest)
    · exact List.Perm.refl _

/-- Sorted insertion makes the queue one longer. -/
theorem g_queue_insert_sorted_length (f : Notification → Notification → Int)
    (q : List Notification) (n : Notification) :
    (g_queue_insert_sorted f q n).length = q.length + 1 := by
  simpa using (g_queue_insert_sorted_perm f q n).length_eq

/-- The assignment of a start time keeps the ids of the displayed queue. -/
theorem set_start_ids (s : State) (i : Nat) (v : Int) :
    ids (set_start s i v).displayed = ids s.displayed := by
  unfold set_start ids
  simp only [List.map_map]
  apply List.map_congr_left
  intro m _
  simp only [Function.comp]
  split_ifs <;> rfl

/-- An expiry loop in which nothing expires keeps `queue`, and the ids
of `displayed`; when the user is not idle it changes nothing at all. -/
theorem check_timeouts_loop_no_expiry (env : Env) (now : Int) (idle : Bool)
    (iter : List Notification) (s : State)
    (hne : ∀ n ∈ iter, expires now idle n = false) :
    (check_timeouts_loop env now idle iter s).queue = s.queue ∧
    ids (check_timeouts_loop env now idle iter s).displayed = ids s.displayed ∧
    (check_timeouts_loop env now idle iter s).pause_display = s.pause_display ∧
    (idle = false → check_timeouts_loop env now idle iter s = s) := by
  induction iter generalizing s with
  | nil => simp [check_timeouts_loop]
  | cons n iter ih =>
    have hn := hne n (List.mem_cons_self _ _)
    have hrest : ∀ m ∈ iter, expires now idle m = false :=
      fun m hm => hne m (List.mem_cons_of_mem _ hm)
    unfold check_timeouts_loop
    by_cases hf : (idle && !n.transient) = true
    · simp only [hf, if_true]
      obtain ⟨i1, i2, i3, _⟩ := ih (set_start s n.id now) hrest
      refine ⟨by rw [i1]; rfl, by rw [i2, set_start_ids], by rw [i3]; rfl, ?_⟩
      intro hi
      simp [hi] at hf
    · have hfz : frozen idle n = false := by simpa [frozen] using hf
      simp only [hf, Bool.false_eq_true, if_false]
      by_cases hs : n.start = 0 ∨ n.timeout = 0
      · simp only [hs, if_true]
        exact ih s hrest
      · simp only [hs, if_false]
        by_cases ho : i64_sub now n.start > n.timeout
        · exfalso
          push_neg at hs
          simp [expires, overdue, hfz, hs.1, hs.2] at hn
          omega
        · simp only [ho, if_false]
          exact ih s hrest

/-- The pause loop empties `displayed` and moves its notifications to `queue`. -/
theorem pause_loop_spec (env : Env) (l : List Notification) (s : State) (hl : s.displayed = l) :
    (pause_loop env l s).displayed = [] ∧
    (pause_loop env l s).queue.Perm (s.queue ++ l) ∧
    (pause_loop env l s).history = s.history := by
  induction l generalizing s with
  | nil => simp [pause_loop, hl]
  | cons n rest ih =>
    unfold pause_loop
    obtain ⟨i1, i2, i3⟩ := ih
      { s with displayed := rest,
               queue := g_queue_insert_sorted env.notification_cmp_data s.queue n } rfl
    refine ⟨i1, ?_, i3⟩
    refine i2.trans ?_
    simp only
    refine ((g_queue_insert_sorted_perm _ s.queue n).append_right rest).trans ?_
    simp only [List.cons_append]
    exact List.perm_middle.symm

/-- The part of `run` after `update_lists` touches none of the three queues. -/
theorem run_queues (env : Env) (data : Bool) (now : Int) (idle : Bool) (s : State) :
    (run env data now idle s).queue = (update_lists env now idle s).queue ∧
    (run env data now idle s).displayed = (update_lists env now idle s).displayed ∧
    (run env data now idle s).history = (update_lists env now idle s).history := by
  have h1 : ∀ u : State, (run_timer_fired data u).queue = u.queue ∧
      (run_timer_fired data u).displayed = u.displayed ∧
      (run_timer_fired data u).history = u.history := by
    intro u; unfold run_timer_fired; split_ifs <;> simp
  have h2 : ∀ u : State, (run_show u).queue = u.queue ∧
      (run_show u).displayed = u.displayed ∧ (run_show u).history = u.history := by
    intro u; unfold run_show x_win_show; split_ifs <;> simp
  have h3 : ∀ u : State, (run_hide u).queue = u.queue ∧
      (run_hide u).displayed = u.displayed ∧ (run_hide u).history = u.history := by
    intro u; unfold run_hide x_win_hide; split_ifs <;> simp
  have h4 : ∀ u : State, (run_draw u).queue = u.queue ∧
      (run_draw u).displayed = u.displayed ∧ (run_draw u).history = u.history := by
    intro u; unfold run_draw x_win_draw; split_ifs <;> simp
  have h5 : ∀ u : State, (run_arm env now u).queue = u.queue ∧
      (run_arm env now u).displayed = u.displayed ∧ (run_arm env now u).history = u.history := by
    intro u; unfold run_arm arm_timer; simp only; split_ifs <;> simp
  unfold run
  refine ⟨?_, ?_, ?_⟩
  · rw [(h5 _).1, (h4 _).1, (h3 _).1, (h2 _).1, (h1 _).1]
  · rw [(h5 _).2.1, (h4 _).2.1, (h3 _).2.1, (h2 _).2.1, (h1 _).2.1]
  · rw [(h5 _).2.2, (h4 _).2.2, (h3 _).2.2, (h2 _).2.2, (h1 _).2.2]

/-- C10: when no displayed notification expires on that tick, `pause_signal`
leaves `displayed` empty and `queue` with as many notifications as `displayed`
and `queue` held together; the ids in `queue` are exactly the ids that were in
`queue` or `displayed`, each as often as before, and when the user is not idle
the records themselves are the same. -/
theorem C10_pause_round_trip (env : Env) (now : Int) (idle : Bool) (s : State)
    (hne : ∀ n ∈ s.displayed, expires now idle n = false) :
    (pause_signal env now idle s).displayed.length = 0 ∧
    (pause_signal env now idle s).queue.length = s.displayed.length + s.queue.length ∧
    (ids (pause_signal env now idle s).queue).Perm (ids s.queue ++ ids s.displayed) ∧
    (idle = false → (pause_signal env now idle s).queue.Perm (s.queue ++ s.displayed)) := by
  have hq := run_queues env false now idle { s with pause_display := true }
  unfold pause_signal wake_up
  rw [hq.1, hq.2.1]
  unfold update_lists
  simp only
  have hct : (check_timeouts env now idle { s with pause_display := true }).queue = s.queue ∧
      ids (check_timeouts env now idle { s with pause_display := true }).displayed
        = ids s.displayed ∧
      (check_timeouts env now idle { s with pause_display := true }).pause_display = true ∧
      (idle = false → check_timeouts env now idle { s with pause_display := true }
        = { s with pause_display := true }) := by
    unfold check_timeouts
    split_ifs
    · simp
    · exact check_timeouts_loop_no_expiry env now idle s.displayed
        { s with pause_display := true } hne
  obtain ⟨c1, c2, c3, c4⟩ := hct
  simp only [c3, if_true]
  obtain ⟨p1, p2, _⟩ := pause_loop_spec env
    (check_timeouts env now idle { s with pause_display := true }).displayed
    (check_timeouts env now idle { s with pause_display := true }) rfl
  have hids : (ids (pause_loop env
      (check_timeouts env now idle { s with pause_display := true }).displayed
      (check_timeouts env now idle { s with pause_display := true })).queue).Perm
      (ids s.queue ++ ids s.displayed) := by
    have := p2.map (fun n => n.id)
    rw [List.map_append, c1] at this
    unfold ids at c2 ⊢
    rw [c2] at this
    exact this
  refine ⟨by rw [p1]; rfl, ?_, hids, ?_⟩
  · have := hids.length_eq
    simp only [ids, List.length_map, List.length_append] at this
    omega
  · intro hi
    have := c4 hi
    rw [this] at p2
    rw [this]
    exact p2

/-- C10, the scenario: three displayed and two pending notifications, none
expiring; after `pause_signal` none is displayed and five are pending. -/
theorem C10_pause_round_trip_witness :
    (pause_signal (mk_env 0 (-1) 0) 10 false
        (mk_state [mk_notification 4 0 0 0, mk_notification 5 0 0 0]
          [mk_notification 1 2 0 0, mk_notification 2 8 5 0, mk_notification 3 9 5 0]
          [])).displayed.length = 0 ∧
    (pause_signal (mk_env 0 (-1) 0) 10 false
        (mk_state [mk_notification 4 0 0 0, mk_notification 5 0 0 0]
          [mk_notification 1 2 0 0, mk_notification 2 8 5 0, mk_notification 3 9 5 0]
          [])).queue.length = 3 + 2 :=
  ⟨(C10_pause_round_trip (mk_env 0 (-1) 0) 10 false
      (mk_state [mk_notification 4 0 0 0, mk_notification 5 0 0 0]
        [mk_notification 1 2 0 0, mk_notification 2 8 5 0, mk_notification 3 9 5 0] [])
      (by decide)).1,
   by decide⟩

/-! ### C3: capacity -/

/-- Removal from a queue does not make it longer. -/
theorem g_queue_remove_length_le (q : List Notification) (i : Nat) :
    (g_queue_remove q i).length ≤ q.length := by
  unfold g_queue_remove
  exact (List.eraseP_sublist q).length_le

/-- A close does not make `displayed` longer. -/
theorem notification_close_displayed_length (env : Env) (s : State) (i : Nat) (reason : Int) :
    (notification_close env s i reason).displayed.length ≤ s.displayed.length := by
  unfold notification_close
  cases lookup s.displayed i with
  | some n =>
    simp only [history_push_displayed]
    exact g_queue_remove_length_le _ _
  | none =>
    cases lookup s.queue i with
    | some n => simp only [history_push_displayed]; exact le_refl _
    | none => exact le_refl _

/-- The expiry loop does not make `displayed` longer. -/
theorem check_timeouts_loop_displayed_length (env : Env) (now : Int) (idle : Bool)
    (iter : List Notification) (s : State) :
    (check_timeouts_loop env now idle iter s).displayed.length ≤ s.displayed.length := by
  induction iter generalizing s with
  | nil => simp [check_timeouts_loop]
  | cons n iter ih =>
    unfold check_timeouts_loop
    split_ifs
    · refine le_trans (ih _) ?_
      simp [set_start]
    · exact ih s
    · exact le_trans (ih _) (notification_close_displayed_length env s n.id 1)
    · exact ih s

/-- The expiry pass does not make `displayed` longer. -/
theorem check_timeouts_displayed_length (env : Env) (now : Int) (idle : Bool) (s : State) :
    (check_timeouts env now idle s).displayed.length ≤ s.displayed.length := by
  unfold check_timeouts
  split_ifs
  · exact le_refl _
  · exact check_timeouts_loop_displayed_length env now idle s.displayed s

/-- With a positive limit the promotion loop stops at the limit. -/
theorem promote_loop_displayed_length (env : Env) (now : Int) (limit : Int)
    (l : List Notification) (s : State) (hl : 0 < limit)
    (hs : (s.displayed.length : Int) ≤ limit) :
    ((promote_loop env now limit l s).displayed.length : Int) ≤ limit := by
  induction l generalizing s with
  | nil => simpa [promote_loop] using hs
  | cons n rest ih =>
    unfold promote_loop
    by_cases hfull : limit > 0 ∧ (s.displayed.length : Int) ≥ limit
    · simp only [hfull, and_self, if_true]
      exact hs
    · simp only [hfull, if_false]
      apply ih
      have hlt : (s.displayed.length : Int) < limit := by
        by_contra hc
        exact hfull ⟨hl, by omega⟩
      split_ifs <;>
        (simp only [g_queue_insert_sorted_length]; push_cast; omega)

/-- After `update_lists` with a positive limit, `displayed` is within the
limit when it was before. -/
theorem update_lists_displayed_length (env : Env) (now : Int) (idle : Bool) (s : State)
    (hl : 0 < limit_of env) (hs : (s.displayed.length : Int) ≤ limit_of env) :
    ((update_lists env now idle s).displayed.length : Int) ≤ limit_of env := by
  unfold update_lists
  simp only
  have hc := check_timeouts_displayed_length env now idle s
  split_ifs
  · rw [(pause_loop_spec env _ _ rfl).1]
    simp only [List.length_nil]
    push_cast
    omega
  · apply promote_loop_displayed_length env now _ _ _ hl
    have : ((check_timeouts env now idle s).displayed.length : Int) ≤ s.displayed.length := by
      exact_mod_cast hc
    omega

/-- The tick keeps `displayed` within a positive limit. -/
theorem run_displayed_length (env : Env) (data : Bool) (now : Int) (idle : Bool) (s : State)
    (hl : 0 < limit_of env) (hs : (s.displayed.length : Int) ≤ limit_of env) :
    ((run env data now idle s).displayed.length : Int) ≤ limit_of env := by
  rw [(run_queues env data now idle s).2.1]
  exact update_lists_displayed_length env now idle s hl hs

/-- The first loop of `move_all_to_history` does not make `displayed` longer. -/
theorem move_displayed_displayed_length (env : Env) (fuel : Nat) (s : State) :
    (move_displayed env fuel s).displayed.length ≤ s.displayed.length := by
  induction fuel generalizing s with
  | zero => simp [move_displayed]
  | succ k ih =>
    unfold move_displayed
    cases hd : s.displayed with
    | nil => simp [hd]
    | cons n rest =>
      simp only
      refine le_trans (ih _) ?_
      have := notification_close_displayed_length env s n.id 2
      rw [hd] at this
      exact this

/-- The second loop of `move_all_to_history` does not make `displayed` longer. -/
theorem move_queue_displayed_length (env : Env) (fuel : Nat) (s : State) :
    (move_queue env fuel s).displayed.length ≤ s.displayed.length := by
  induction fuel generalizing s with
  | zero => simp [move_queue]
  | succ k ih =>
    unfold move_queue
    cases hd : s.queue with
    | nil => simp
    | cons n rest =>
      simp only
      exact le_trans (ih _) (notification_close_displayed_length env s n.id 2)

/-- Every event keeps `displayed` within a positive limit. -/
theorem step_displayed_length (env : Env) (s : State) (op : Op)
    (hl : 0 < limit_of env) (hs : (s.displayed.length : Int) ≤ limit_of env) :
    ((step env s op).displayed.length : Int) ≤ limit_of env := by
  cases op with
  | enqueue n => simpa [step, notification_init] using hs
  | tick data now idle => exact run_displayed_length env data now idle s hl hs
  | close i reason =>
    have := notification_close_displayed_length env s i reason
    simp only [step]
    have h2 : ((notification_close env s i reason).displayed.length : Int) ≤ s.displayed.length := by
      exact_mod_cast this
    omega
  | recall_last now idle =>
    simp only [step, history_pop]
    cases s.history.getLast? with
    | none => exact hs
    | some n => exact run_displayed_length env false now idle _ hl hs
  | close_all =>
    simp only [step, move_all_to_history]
    have h1 := move_displayed_displayed_length env s.displayed.length s
    have h2 := move_queue_displayed_length env (move_displayed env s.displayed.length s).queue.length
      (move_displayed env s.displayed.length s)
    have h3 : ((move_queue env (move_displayed env s.displayed.length s).queue.length
      (move_displayed env s.displayed.length s)).displayed.length : Int) ≤ s.displayed.length := by
      exact_mod_cast le_trans h2 h1
    omega
  | pause now idle => exact run_displayed_length env false now idle _ hl hs
  | unpause now idle => exact run_displayed_length env false now idle _ hl hs

/-- Every run of events from a state within a positive limit ends within it. -/
theorem foldl_step_displayed_length (env : Env) (ops : List Op) (s : State)
    (hl : 0 < limit_of env) (hs : (s.displayed.length : Int) ≤ limit_of env) :
    (((ops.foldl (step env) s).displayed.length : Int)) ≤ limit_of env := by
  induction ops generalizing s with
  | nil => simpa using hs
  | cons op ops ih =>
    simp only [List.foldl_cons]
    exact ih _ (step_displayed_length env s op hl hs)

/-- C3: with a layout height of at least 1, after every tick from a state
reached from the empty queues, and in every such state, the length of
`displayed` is at most the capacity: 1 for height 1, the height minus 1 when
the hidden indicator is enabled, the height otherwise. -/
theorem C3_capacity_invariant (env : Env) (hh : 1 ≤ env.geometry_h) (ops : List Op)
    (data : Bool) (now : Int) (idle : Bool) :
    ((run env data now idle (reach env ops)).displayed.length : Int)
      ≤ (if env.geometry_h = 1 then 1
         else if env.settings.indicate_hidden then env.geometry_h - 1
         else env.geometry_h) ∧
    ((reach env ops).displayed.length : Int)
      ≤ (if env.geometry_h = 1 then 1
         else if env.settings.indicate_hidden then env.geometry_h - 1
         else env.geometry_h) := by
  have hcap : limit_of env = (if env.geometry_h = 1 then 1
         else if env.settings.indicate_hidden then env.geometry_h - 1
         else env.geometry_h) := by
    unfold limit_of
    have : ¬ env.geometry_h = 0 := by omega
    simp only [this, if_false]
  have hl : 0 < limit_of env := by
    rw [hcap]
    split_ifs <;> omega
  have hr : ((reach env ops).displayed.length : Int) ≤ limit_of env :=
    foldl_step_displayed_length env ops init hl (by simp [init]; omega)
  rw [← hcap]
  exact ⟨run_displayed_length env data now idle _ hl hr, hr⟩

/-- C3 at a concrete input: height 2, three arrivals and a tick fill the two
slots; a further tick stays within the capacity. -/
theorem C3_capacity_invariant_witness :
    (reach (mk_env 0 (-1) 2)
        [Op.enqueue (mk_notification 0 0 0 0), Op.enqueue (mk_notification 0 0 0 0),
         Op.enqueue (mk_notification 0 0 0 0), Op.tick false 1 false]).displayed.length = 2 ∧
    ((run (mk_env 0 (-1) 2) false 2 false
        (reach (mk_env 0 (-1) 2)
          [Op.enqueue (mk_notification 0 0 0 0), Op.enqueue (mk_notification 0 0 0 0),
           Op.enqueue (mk_notification 0 0 0 0), Op.tick false 1 false])).displayed.length : Int)
      ≤ (if (mk_env 0 (-1) 2).geometry_h = 1 then 1
         else if (mk_env 0 (-1) 2).settings.indicate_hidden then (mk_env 0 (-1) 2).geometry_h - 1
         else (mk_env 0 (-1) 2).geometry_h) :=
  ⟨by decide,
   (C3_capacity_invariant (mk_env 0 (-1) 2) (by decide)
      [Op.enqueue (mk_notification 0 0 0 0), Op.enqueue (mk_notification 0 0 0 0),
       Op.enqueue (mk_notification 0 0 0 0), Op.tick false 1 false] false 2 false).1⟩


/-! ### C2: partition -/

/-- A notification found in a queue is the one removed from it. -/
theorem lookup_remove_perm (q : List Notification) (i : Nat) (n : Notification)
    (h : lookup q i = some n) : q.Perm (n :: g_queue_remove q i) := by
  induction q with
  | nil => simp [lookup] at h
  | cons x rest ih =>
    unfold lookup at h ih
    unfold g_queue_remove at ih ⊢
    by_cases hx : (x.id == i) = true
    · simp only [List.find?_cons, hx, Option.some.injEq] at h
      subst h
      simp [List.eraseP_cons, hx]
    · simp only [List.find?_cons, hx] at h
      simp only [List.eraseP_cons, hx, Bool.false_eq_true, if_false]
      exact (List.Perm.cons x (ih h)).trans (List.Perm.swap n x _)

/-- The ids of a concatenation, as a multiset. -/
theorem ids_append_coe (a b : List Notification) :
    (ids (a ++ b) : Multiset Nat) = (ids a : Multiset Nat) + (ids b : Multiset Nat) := by
  simp [ids]

/-- The ids of a queue with a head, as a multiset. -/
theorem ids_cons_coe (n : Notification) (q : List Notification) :
    (ids (n :: q) : Multiset Nat) = {n.id} + (ids q : Multiset Nat) := by
  simp [ids]

/-- The ids that left, for a log with one more event. -/
theorem gone_of_append_coe (log : List Event) (e : Event) :
    (gone_of (log ++ [e]) : Multiset Nat) = (gone_of log : Multiset Nat) + (gone_of [e] : Multiset Nat) := by
  simp [gone_of, List.filterMap_append]

/-- Permuted queues have the same ids. -/
theorem ids_coe_of_perm (a b : List Notification) (h : a.Perm b) :
    (ids a : Multiset Nat) = (ids b : Multiset Nat) := by
  unfold ids
  exact Multiset.coe_eq_coe.mpr (h.map (fun m => m.id))

/-- Multiset form of `lookup_remove_perm`, on ids. -/
theorem lookup_remove_ids (q : List Notification) (i : Nat) (n : Notification)
    (h : lookup q i = some n) :
    (ids q : Multiset Nat) = {n.id} + (ids (g_queue_remove q i) : Multiset Nat) := by
  rw [ids_coe_of_perm _ _ (lookup_remove_perm q i n h), ids_cons_coe]

/-- The ids of a one-element queue. -/
theorem ids_singleton_coe (n : Notification) : (ids [n] : Multiset Nat) = {n.id} := by
  simp [ids]

/-- An eviction moves an id to the ones that left. -/
theorem gone_of_free (a : Notification) : (gone_of [Event.free a] : Multiset Nat) = {a.id} := by
  simp [gone_of]

/-- A close adds the id to the ones that left when `history_ignore` is set. -/
theorem gone_of_closed (n : Notification) (reason : Int) :
    (gone_of [Event.closed n reason] : Multiset Nat) = (if n.history_ignore then {n.id} else 0) := by
  cases hi : n.history_ignore <;> simp [gone_of, hi]

/-- Conservation for `history_push`, on the history and the log: the pushed
notification enters the history unless it has `history_ignore`; an evicted
entry moves to the ids that left. -/
theorem history_push_history_gone (env : Env) (s : State) (n : Notification) :
    (ids (history_push env s n).history : Multiset Nat) + (gone_of (history_push env s n).log : Multiset Nat) =
      (ids s.history : Multiset Nat) + (gone_of s.log : Multiset Nat)
        + (if n.history_ignore then 0 else {n.id}) := by
  unfold history_push
  by_cases hc : env.settings.history_length > 0 ∧
        (s.history.length : Int) ≥ env.settings.history_length
  · simp only [hc, and_self, if_true]
    cases hh : s.history with
    | nil =>
      exfalso
      rw [hh] at hc
      simp only [List.length_nil] at hc
      omega
    | cons a rest =>
      cases hi : n.history_ignore
      · simp only [Bool.not_false, if_true, Bool.false_eq_true, if_false, ids_append_coe,
          ids_singleton_coe, ids_cons_coe, gone_of_append_coe, gone_of_free]
        abel
      · simp only [Bool.not_true, Bool.false_eq_true, if_false, if_true, add_zero,
          ids_cons_coe, gone_of_append_coe, gone_of_free]
        abel
  · simp only [hc, if_false]
    cases hi : n.history_ignore
    · simp only [Bool.not_false, if_true, Bool.false_eq_true, if_false, ids_append_coe,
        ids_singleton_coe]
      abel
    · simp only [Bool.not_true, Bool.false_eq_true, if_false, if_true, add_zero]

/-- `history_push` does not touch the id counter. -/
theorem history_push_next_id (env : Env) (s : State) (n : Notification) :
    (history_push env s n).next_id = s.next_id := by
  unfold history_push
  cases s.history <;> (split_ifs <;> rfl)

/-- Conservation for `history_push`. -/
theorem history_push_total (env : Env) (s : State) (n : Notification) :
    live_ids (history_push env s n) + gone_ids (history_push env s n) =
      live_ids s + gone_ids s + (if n.history_ignore then 0 else {n.id}) := by
  unfold live_ids gone_ids
  rw [history_push_queue, history_push_displayed, add_assoc, history_push_history_gone]
  abel

/-- Conservation for `notification_close`: what leaves its queue enters the
history or the ids that left. -/
theorem notification_close_total (env : Env) (s : State) (i : Nat) (reason : Int) :
    live_ids (notification_close env s i reason) + gone_ids (notification_close env s i reason) =
      live_ids s + gone_ids s ∧
    (notification_close env s i reason).next_id = s.next_id := by
  unfold notification_close
  cases hd : lookup s.displayed i with
  | some n =>
    simp only [history_push_total, history_push_next_id]
    refine ⟨?_, trivial⟩
    simp only [live_ids, gone_ids, gone_of_append_coe, lookup_remove_ids _ _ _ hd, gone_of_closed]
    cases hi : n.history_ignore <;>
      simp only [Bool.false_eq_true, if_false, if_true, add_zero] <;> abel
  | none =>
    cases hq : lookup s.queue i with
    | some n =>
      simp only [history_push_total, history_push_next_id]
      refine ⟨?_, trivial⟩
      simp only [live_ids, gone_ids, gone_of_append_coe, lookup_remove_ids _ _ _ hq, gone_of_closed]
      cases hi : n.history_ignore <;>
        simp only [Bool.false_eq_true, if_false, if_true, add_zero] <;> abel
    | none => simp

/-- The ids after a sorted insertion. -/
theorem ids_insert_sorted_coe (f : Notification → Notification → Int)
    (q : List Notification) (n : Notification) :
    (ids (g_queue_insert_sorted f q n) : Multiset Nat) = {n.id} + (ids q : Multiset Nat) := by
  rw [ids_coe_of_perm _ _ (g_queue_insert_sorted_perm f q n), ids_cons_coe]

/-- Conservation for the expiry loop. -/
theorem check_timeouts_loop_total (env : Env) (now : Int) (idle : Bool)
    (iter : List Notification) (s : State) :
    live_ids (check_timeouts_loop env now idle iter s)
        + gone_ids (check_timeouts_loop env now idle iter s) = live_ids s + gone_ids s ∧
    (check_timeouts_loop env now idle iter s).next_id = s.next_id := by
  induction iter generalizing s with
  | nil => simp [check_timeouts_loop]
  | cons n iter ih =>
    unfold check_timeouts_loop
    split_ifs
    · obtain ⟨i1, i2⟩ := ih (set_start s n.id now)
      rw [i1, i2]
      refine ⟨?_, rfl⟩
      unfold live_ids gone_ids
      rw [set_start_ids]
      rfl
    · exact ih s
    · obtain ⟨i1, i2⟩ := ih (notification_close env s n.id 1)
      obtain ⟨c1, c2⟩ := notification_close_total env s n.id 1
      rw [i1, i2, c1, c2]
      exact ⟨rfl, rfl⟩
    · exact ih s

/-- Conservation for the expiry pass. -/
theorem check_timeouts_total (env : Env) (now : Int) (idle : Bool) (s : State) :
    live_ids (check_timeouts env now idle s) + gone_ids (check_timeouts env now idle s)
        = live_ids s + gone_ids s ∧
    (check_timeouts env now idle s).next_id = s.next_id := by
  unfold check_timeouts
  split_ifs
  · exact ⟨rfl, rfl⟩
  · exact check_timeouts_loop_total env now idle s.displayed s

/-- Conservation for the pause loop. -/
theorem pause_loop_total (env : Env) (l : List Notification) (s : State) (hl : s.displayed = l) :
    live_ids (pause_loop env l s) + gone_ids (pause_loop env l s) = live_ids s + gone_ids s ∧
    (pause_loop env l s).next_id = s.next_id := by
  induction l generalizing s with
  | nil => simp [pause_loop]
  | cons n rest ih =>
    unfold pause_loop
    obtain ⟨i1, i2⟩ := ih
      { s with displayed := rest,
               queue := g_queue_insert_sorted env.notification_cmp_data s.queue n } rfl
    rw [i1, i2]
    refine ⟨?_, rfl⟩
    simp only [live_ids, gone_ids, hl, ids_insert_sorted_coe, ids_cons_coe]
    abel

/-- A script call is not a loss of a notification. -/
theorem gone_of_run_script (i : Nat) : (gone_of [Event.run_script i] : Multiset Nat) = 0 := by
  simp [gone_of]

/-- Conservation for the promotion loop. -/
theorem promote_loop_total (env : Env) (now : Int) (limit : Int) (l : List Notification)
    (s : State) (hl : s.queue = l) :
    live_ids (promote_loop env now limit l s) + gone_ids (promote_loop env now limit l s)
        = live_ids s + gone_ids s ∧
    (promote_loop env now limit l s).next_id = s.next_id := by
  induction l generalizing s with
  | nil => simp [promote_loop]
  | cons n rest ih =>
    unfold promote_loop
    by_cases hfull : limit > 0 ∧ (s.displayed.length : Int) ≥ limit
    · simp only [hfull, and_self, if_true]
    · simp only [hfull, if_false]
      split_ifs
      · obtain ⟨i1, i2⟩ := ih
          { s with queue := rest, log := s.log ++ [Event.run_script n.id],
                   displayed := g_queue_insert_sorted env.notification_cmp_data s.displayed
                     { n with start := now } } rfl
        rw [i1, i2]
        refine ⟨?_, rfl⟩
        simp only [live_ids, gone_ids, hl, ids_insert_sorted_coe, ids_cons_coe,
          gone_of_append_coe, gone_of_run_script]
        abel
      · obtain ⟨i1, i2⟩ := ih
          { s with queue := rest,
                   displayed := g_queue_insert_sorted env.notification_cmp_data s.displayed
                     { n with start := now } } rfl
        rw [i1, i2]
        refine ⟨?_, rfl⟩
        simp only [live_ids, gone_ids, hl, ids_insert_sorted_coe, ids_cons_coe]
        abel

/-- Conservation for `update_lists`. -/
theorem update_lists_total (env : Env) (now : Int) (idle : Bool) (s : State) :
    live_ids (update_lists env now idle s) + gone_ids (update_lists env now idle s)
        = live_ids s + gone_ids s ∧
    (update_lists env now idle s).next_id = s.next_id := by
  unfold update_lists
  simp only
  obtain ⟨c1, c2⟩ := check_timeouts_total env now idle s
  split_ifs
  · obtain ⟨p1, p2⟩ := pause_loop_total env _ (check_timeouts env now idle s) rfl
    rw [p1, p2, c1, c2]
    exact ⟨rfl, rfl⟩
  · obtain ⟨p1, p2⟩ := promote_loop_total env now (limit_of env) _
      (check_timeouts env now idle s) rfl
    rw [p1, p2, c1, c2]
    exact ⟨rfl, rfl⟩

/-- The part of `run` after `update_lists` loses no notification. -/
theorem run_total (env : Env) (data : Bool) (now : Int) (idle : Bool) (s : State) :
    live_ids (run env data now idle s) + gone_ids (run env data now idle s)
        = live_ids s + gone_ids s ∧
    (run env data now idle s).next_id = s.next_id := by
  have h1 : ∀ u : State, live_ids (run_timer_fired data u) + gone_ids (run_timer_fired data u)
        = live_ids u + gone_ids u ∧ (run_timer_fired data u).next_id = u.next_id := by
    intro u; unfold run_timer_fired; split_ifs <;> exact ⟨rfl, rfl⟩
  have h2 : ∀ u : State, live_ids (run_show u) + gone_ids (run_show u)
        = live_ids u + gone_ids u ∧ (run_show u).next_id = u.next_id := by
    intro u; unfold run_show x_win_show
    split_ifs
    · simp [live_ids, gone_ids, gone_of, List.filterMap_append]
    · exact ⟨rfl, rfl⟩
  have h3 : ∀ u : State, live_ids (run_hide u) + gone_ids (run_hide u)
        = live_ids u + gone_ids u ∧ (run_hide u).next_id = u.next_id := by
    intro u; unfold run_hide x_win_hide
    split_ifs
    · simp [live_ids, gone_ids, gone_of, List.filterMap_append]
    · exact ⟨rfl, rfl⟩
  have h4 : ∀ u : State, live_ids (run_draw u) + gone_ids (run_draw u)
        = live_ids u + gone_ids u ∧ (run_draw u).next_id = u.next_id := by
    intro u; unfold run_draw x_win_draw
    split_ifs
    · simp [live_ids, gone_ids, gone_of, List.filterMap_append]
    · exact ⟨rfl, rfl⟩
  have h5 : ∀ u : State, live_ids (run_arm env now u) + gone_ids (run_arm env now u)
        = live_ids u + gone_ids u ∧ (run_arm env now u).next_id = u.next_id := by
    intro u; unfold run_arm arm_timer
    simp only
    split_ifs
    · simp [live_ids, gone_ids, gone_of, List.filterMap_append]
    · exact ⟨rfl, rfl⟩
    · exact ⟨rfl, rfl⟩
    · exact ⟨rfl, rfl⟩
  obtain ⟨u1, u2⟩ := update_lists_total env now idle s
  unfold run
  rw [(h5 _).1, (h5 _).2, (h4 _).1, (h4 _).2, (h3 _).1, (h3 _).2, (h2 _).1, (h2 _).2,
    (h1 _).1, (h1 _).2, u1, u2]
  exact ⟨rfl, rfl⟩

/-- A non-empty list is its front followed by its last element. -/
theorem ids_getLast_coe (h : List Notification) (n : Notification)
    (hn : h.getLast? = some n) :
    (ids h : Multiset Nat) = (ids h.dropLast : Multiset Nat) + {n.id} := by
  have : h = h.dropLast ++ [n] := by
    have hne : h ≠ [] := by
      intro he; rw [he] at hn; simp at hn
    have := List.dropLast_append_getLast hne
    rw [List.getLast?_eq_getLast h hne] at hn
    simp only [Option.some.injEq] at hn
    rw [hn] at this
    exact this.symm
  conv_lhs => rw [this]
  rw [ids_append_coe, ids_singleton_coe]

/-- Conservation for `history_pop`. -/
theorem history_pop_total (env : Env) (now : Int) (idle : Bool) (s : State) :
    live_ids (history_pop env now idle s) + gone_ids (history_pop env now idle s)
        = live_ids s + gone_ids s ∧
    (history_pop env now idle s).next_id = s.next_id := by
  unfold history_pop
  cases hh : s.history.getLast? with
  | none => exact ⟨rfl, rfl⟩
  | some n =>
    simp only [wake_up]
    obtain ⟨r1, r2⟩ := run_total env false now idle
      { s with history := s.history.dropLast,
               queue := { n with redisplayed := true, start := 0,
                                 timeout := if env.settings.sticky_history then 0 else n.timeout }
                        :: s.queue }
    rw [r1, r2]
    refine ⟨?_, rfl⟩
    simp only [live_ids, gone_ids, ids_cons_coe]
    rw [ids_getLast_coe s.history n hh]
    abel

/-- Conservation for the first loop of `move_all_to_history`. -/
theorem move_displayed_total (env : Env) (fuel : Nat) (s : State) :
    live_ids (move_displayed env fuel s) + gone_ids (move_displayed env fuel s)
        = live_ids s + gone_ids s ∧
    (move_displayed env fuel s).next_id = s.next_id := by
  induction fuel generalizing s with
  | zero => simp [move_displayed]
  | succ k ih =>
    unfold move_displayed
    cases s.displayed with
    | nil => exact ⟨rfl, rfl⟩
    | cons n rest =>
      simp only
      obtain ⟨i1, i2⟩ := ih (notification_close env s n.id 2)
      obtain ⟨c1, c2⟩ := notification_close_total env s n.id 2
      rw [i1, i2, c1, c2]
      exact ⟨rfl, rfl⟩

/-- Conservation for the second loop of `move_all_to_history`. -/
theorem move_queue_total (env : Env) (fuel : Nat) (s : State) :
    live_ids (move_queue env fuel s) + gone_ids (move_queue env fuel s)
        = live_ids s + gone_ids s ∧
    (move_queue env fuel s).next_id = s.next_id := by
  induction fuel generalizing s with
  | zero => simp [move_queue]
  | succ k ih =>
    unfold move_queue
    cases s.queue with
    | nil => exact ⟨rfl, rfl⟩
    | cons n rest =>
      simp only
      obtain ⟨i1, i2⟩ := ih (notification_close env s n.id 2)
      obtain ⟨c1, c2⟩ := notification_close_total env s n.id 2
      rw [i1, i2, c1, c2]
      exact ⟨rfl, rfl⟩

/-- Conservation for every event but the arrival of a notification. -/
theorem step_total (env : Env) (s : State) (op : Op) (hop : ∀ n, op ≠ Op.enqueue n) :
    live_ids (step env s op) + gone_ids (step env s op) = live_ids s + gone_ids s ∧
    (step env s op).next_id = s.next_id := by
  cases op with
  | enqueue n => exact absurd rfl (hop n)
  | tick data now idle => exact run_total env data now idle s
  | close i reason => exact notification_close_total env s i reason
  | recall_last now idle => exact history_pop_total env now idle s
  | close_all =>
    simp only [step, move_all_to_history]
    obtain ⟨a1, a2⟩ := move_displayed_total env s.displayed.length s
    obtain ⟨b1, b2⟩ := move_queue_total env (move_displayed env s.displayed.length s).queue.length
      (move_displayed env s.displayed.length s)
    rw [b1, b2, a1, a2]
    exact ⟨rfl, rfl⟩
  | pause now idle => exact run_total env false now idle { s with pause_display := true }
  | unpause now idle => exact run_total env false now idle { s with pause_display := false }

/-- The arrival of a notification adds its fresh id and nothing else. -/
theorem notification_init_total (env : Env) (s : State) (n : Notification) :
    live_ids (notification_init env s n) + gone_ids (notification_init env s n)
        = s.next_id ::ₘ (live_ids s + gone_ids s) ∧
    (notification_init env s n).next_id = s.next_id + 1 := by
  unfold notification_init
  refine ⟨?_, rfl⟩
  simp only [live_ids, gone_ids, ids_insert_sorted_coe]
  rw [← Multiset.singleton_add]
  abel

/-- The bound on the first loop of `move_all_to_history` is enough: the loop
ends with `displayed` empty. -/
theorem move_displayed_empties (env : Env) (fuel : Nat) (s : State)
    (h : s.displayed.length ≤ fuel) : (move_displayed env fuel s).displayed = [] := by
  induction fuel generalizing s with
  | zero =>
    simp only [move_displayed]
    exact List.length_eq_zero.mp (Nat.le_zero.mp h)
  | succ k ih =>
    unfold move_displayed
    cases hd : s.displayed with
    | nil => simp [hd]
    | cons n rest =>
      simp only
      apply ih
      have hl := lookup_append_cons [] rest n (by simp)
      have hr := g_queue_remove_append_cons [] rest n (by simp)
      simp only [List.nil_append] at hl hr
      unfold notification_close
      rw [hd, hl, hr, history_push_displayed]
      rw [hd] at h
      simp only [List.length_cons] at h
      simp only
      omega

/-- The bound on the second loop of `move_all_to_history` is enough: started
with `displayed` empty, the loop ends with both queues empty. -/
theorem move_queue_empties (env : Env) (fuel : Nat) (s : State)
    (hd : s.displayed = []) (h : s.queue.length ≤ fuel) :
    (move_queue env fuel s).queue = [] ∧ (move_queue env fuel s).displayed = [] := by
  induction fuel generalizing s with
  | zero =>
    simp only [move_queue]
    exact ⟨List.length_eq_zero.mp (Nat.le_zero.mp h), hd⟩
  | succ k ih =>
    unfold move_queue
    cases hq : s.queue with
    | nil => simp [hq, hd]
    | cons n rest =>
      simp only
      have hl := lookup_append_cons [] rest n (by simp)
      have hr := g_queue_remove_append_cons [] rest n (by simp)
      simp only [List.nil_append] at hl hr
      have hc : notification_close env s n.id 2 =
          history_push env { s with queue := rest, log := s.log ++ [Event.closed n 2] } n := by
        unfold notification_close
        rw [hd, hq, hl, hr]
        simp [lookup]
      rw [hc]
      apply ih
      · rw [history_push_displayed]; exact hd
      · rw [history_push_queue]
        rw [hq] at h
        simp only [List.length_cons] at h
        simp only
        omega

/-- `move_all_to_history` returns with `displayed` and `queue` empty. -/
theorem move_all_to_history_empties (env : Env) (s : State) :
    (move_all_to_history env s).displayed = [] ∧ (move_all_to_history env s).queue = [] := by
  unfold move_all_to_history
  simp only
  have h1 := move_displayed_empties env s.displayed.length s (le_refl _)
  have h2 := move_queue_empties env _ (move_displayed env s.displayed.length s) h1 (le_refl _)
  exact ⟨h2.2, h2.1⟩


/-! ### The log only grows -/

/-- `history_push` only adds to the log. -/
theorem history_push_log (env : Env) (s : State) (n : Notification) :
    ∃ ev, (history_push env s n).log = s.log ++ ev := by
  unfold history_push
  cases s.history with
  | nil => split_ifs <;> exact ⟨[], by simp⟩
  | cons a rest =>
    split_ifs
    · exact ⟨[Event.free a], rfl⟩
    · exact ⟨[Event.free a], rfl⟩
    · exact ⟨[], by simp⟩
    · exact ⟨[], by simp⟩

/-- `notification_close` only adds to the log. -/
theorem notification_close_log (env : Env) (s : State) (i : Nat) (reason : Int) :
    ∃ ev, (notification_close env s i reason).log = s.log ++ ev := by
  unfold notification_close
  cases lookup s.displayed i with
  | some n =>
    obtain ⟨ev, h⟩ := history_push_log env
      { s with displayed := g_queue_remove s.displayed i,
               log := s.log ++ [Event.closed n reason] } n
    exact ⟨[Event.closed n reason] ++ ev, by simp only [h, List.append_assoc]⟩
  | none =>
    cases lookup s.queue i with
    | some n =>
      obtain ⟨ev, h⟩ := history_push_log env
        { s with queue := g_queue_remove s.queue i,
                 log := s.log ++ [Event.closed n reason] } n
      exact ⟨[Event.closed n reason] ++ ev, by simp only [h, List.append_assoc]⟩
    | none => exact ⟨[], by simp⟩

/-- The expiry loop only adds to the log. -/
theorem check_timeouts_loop_log (env : Env) (now : Int) (idle : Bool)
    (iter : List Notification) (s : State) :
    ∃ ev, (check_timeouts_loop env now idle iter s).log = s.log ++ ev := by
  induction iter generalizing s with
  | nil => exact ⟨[], by simp [check_timeouts_loop]⟩
  | cons n iter ih =>
    unfold check_timeouts_loop
    split_ifs
    · exact ih (set_start s n.id now)
    · exact ih s
    · obtain ⟨e1, h1⟩ := notification_close_log env s n.id 1
      obtain ⟨e2, h2⟩ := ih (notification_close env s n.id 1)
      exact ⟨e1 ++ e2, by rw [h2, h1, List.append_assoc]⟩
    · exact ih s

/-- The expiry pass only adds to the log. -/
theorem check_timeouts_log (env : Env) (now : Int) (idle : Bool) (s : State) :
    ∃ ev, (check_timeouts env now idle s).log = s.log ++ ev := by
  unfold check_timeouts
  split_ifs
  · exact ⟨[], by simp⟩
  · exact check_timeouts_loop_log env now idle s.displayed s

/-- The pause loop leaves the log as it is. -/
theorem pause_loop_log (env : Env) (l : List Notification) (s : State) :
    (pause_loop env l s).log = s.log := by
  induction l generalizing s with
  | nil => rfl
  | cons n rest ih =>
    unfold pause_loop
    rw [ih]

/-- The promotion loop only adds to the log. -/
theorem promote_loop_log (env : Env) (now : Int) (limit : Int) (l : List Notification) (s : State) :
    ∃ ev, (promote_loop env now limit l s).log = s.log ++ ev := by
  induction l generalizing s with
  | nil => exact ⟨[], by simp [promote_loop]⟩
  | cons n rest ih =>
    unfold promote_loop
    by_cases hfull : limit > 0 ∧ (s.displayed.length : Int) ≥ limit
    · simp only [hfull, and_self, if_true]
      exact ⟨[], by simp⟩
    · simp only [hfull, if_false]
      split_ifs
      · obtain ⟨ev, h⟩ := ih
          { s with queue := rest, log := s.log ++ [Event.run_script n.id],
                   displayed := g_queue_insert_sorted env.notification_cmp_data s.displayed
                     { n with start := now } }
        exact ⟨[Event.run_script n.id] ++ ev, by rw [h]; simp⟩
      · exact ih _

/-- `update_lists` only adds to the log. -/
theorem update_lists_log (env : Env) (now : Int) (idle : Bool) (s : State) :
    ∃ ev, (update_lists env now idle s).log = s.log ++ ev := by
  unfold update_lists
  simp only
  obtain ⟨e1, h1⟩ := check_timeouts_log env now idle s
  split_ifs
  · exact ⟨e1, by rw [pause_loop_log, h1]⟩
  · obtain ⟨e2, h2⟩ := promote_loop_log env now (limit_of env)
      (check_timeouts env now idle s).queue (check_timeouts env now idle s)
    exact ⟨e1 ++ e2, by rw [h2, h1, List.append_assoc]⟩

/-- The tick only adds to the log. -/
theorem run_log (env : Env) (data : Bool) (now : Int) (idle : Bool) (s : State) :
    ∃ ev, (run env data now idle s).log = s.log ++ ev := by
  have h1 : ∀ u : State, ∃ ev, (run_timer_fired data u).log = u.log ++ ev := by
    intro u; unfold run_timer_fired; split_ifs <;> exact ⟨[], by simp⟩
  have h2 : ∀ u : State, ∃ ev, (run_show u).log = u.log ++ ev := by
    intro u; unfold run_show x_win_show
    split_ifs
    · exact ⟨[Event.win_show], rfl⟩
    · exact ⟨[], by simp⟩
  have h3 : ∀ u : State, ∃ ev, (run_hide u).log = u.log ++ ev := by
    intro u; unfold run_hide x_win_hide
    split_ifs
    · exact ⟨[Event.win_hide], rfl⟩
    · exact ⟨[], by simp⟩
  have h4 : ∀ u : State, ∃ ev, (run_draw u).log = u.log ++ ev := by
    intro u; unfold run_draw x_win_draw
    split_ifs
    · exact ⟨[Event.win_draw], rfl⟩
    · exact ⟨[], by simp⟩
  have h5 : ∀ u : State, ∃ ev, (run_arm env now u).log = u.log ++ ev := by
    intro u; unfold run_arm arm_timer
    simp only
    split_ifs
    · exact ⟨_, rfl⟩
    · exact ⟨[], by simp⟩
    · exact ⟨[], by simp⟩
    · exact ⟨[], by simp⟩
  obtain ⟨e0, g0⟩ := update_lists_log env now idle s
  obtain ⟨e1, g1⟩ := h1 (update_lists env now idle s)
  obtain ⟨e2, g2⟩ := h2 (run_timer_fired data (update_lists env now idle s))
  obtain ⟨e3, g3⟩ := h3 (run_show (run_timer_fired data (update_lists env now idle s)))
  obtain ⟨e4, g4⟩ := h4 (run_hide (run_show (run_timer_fired data (update_lists env now idle s))))
  obtain ⟨e5, g5⟩ := h5
    (run_draw (run_hide (run_show (run_timer_fired data (update_lists env now idle s)))))
  refine ⟨e0 ++ (e1 ++ (e2 ++ (e3 ++ (e4 ++ e5)))), ?_⟩
  unfold run
  rw [g5, g4, g3, g2, g1, g0]
  simp only [List.append_assoc]

/-- The loops of `move_all_to_history` only add to the log. -/
theorem move_displayed_log (env : Env) (fuel : Nat) (s : State) :
    ∃ ev, (move_displayed env fuel s).log = s.log ++ ev := by
  induction fuel generalizing s with
  | zero => exact ⟨[], by simp [move_displayed]⟩
  | succ k ih =>
    unfold move_displayed
    cases s.displayed with
    | nil => exact ⟨[], by simp⟩
    | cons n rest =>
      simp only
      obtain ⟨e1, h1⟩ := notification_close_log env s n.id 2
      obtain ⟨e2, h2⟩ := ih (notification_close env s n.id 2)
      exact ⟨e1 ++ e2, by rw [h2, h1, List.append_assoc]⟩

/-- The second loop of `move_all_to_history` only adds to the log. -/
theorem move_queue_log (env : Env) (fuel : Nat) (s : State) :
    ∃ ev, (move_queue env fuel s).log = s.log ++ ev := by
  induction fuel generalizing s with
  | zero => exact ⟨[], by simp [move_queue]⟩
  | succ k ih =>
    unfold move_queue
    cases s.queue with
    | nil => exact ⟨[], by simp⟩
    | cons n rest =>
      simp only
      obtain ⟨e1, h1⟩ := notification_close_log env s n.id 2
      obtain ⟨e2, h2⟩ := ih (notification_close env s n.id 2)
      exact ⟨e1 ++ e2, by rw [h2, h1, List.append_assoc]⟩

/-- Every event only adds to the log. -/
theorem step_log (env : Env) (s : State) (op : Op) :
    ∃ ev, (step env s op).log = s.log ++ ev := by
  cases op with
  | enqueue n => exact ⟨[], by simp [step, notification_init]⟩
  | tick data now idle => exact run_log env data now idle s
  | close i reason => exact notification_close_log env s i reason
  | recall_last now idle =>
    simp only [step, history_pop]
    cases s.history.getLast? with
    | none => exact ⟨[], by simp⟩
    | some n => exact run_log env false now idle _
  | close_all =>
    simp only [step, move_all_to_history]
    obtain ⟨e1, h1⟩ := move_displayed_log env s.displayed.length s
    obtain ⟨e2, h2⟩ := move_queue_log env (move_displayed env s.displayed.length s).queue.length
      (move_displayed env s.displayed.length s)
    exact ⟨e1 ++ e2, by rw [h2, h1, List.append_assoc]⟩
  | pause now idle => exact run_log env false now idle { s with pause_display := true }
  | unpause now idle => exact run_log env false now idle { s with pause_display := false }

/-- The ids that left only grow with the log. -/
theorem gone_ids_le_of_log (s t : State) (h : ∃ ev, t.log = s.log ++ ev) :
    gone_ids s ≤ gone_ids t := by
  obtain ⟨ev, hev⟩ := h
  unfold gone_ids gone_of
  rw [hev, List.filterMap_append, ← Multiset.coe_add]
  exact Multiset.le_add_right _ _

/-- In every state reached from a state where the live ids and the ids that
left are distinct and below the id counter, they are so again. -/
theorem foldl_step_nodup (env : Env) (ops : List Op) (s : State)
    (hnd : (live_ids s + gone_ids s).Nodup)
    (hlt : ∀ i ∈ live_ids s + gone_ids s, i < s.next_id) :
    (live_ids (ops.foldl (step env) s) + gone_ids (ops.foldl (step env) s)).Nodup ∧
    ∀ i ∈ live_ids (ops.foldl (step env) s) + gone_ids (ops.foldl (step env) s),
      i < (ops.foldl (step env) s).next_id := by
  induction ops generalizing s with
  | nil => exact ⟨hnd, hlt⟩
  | cons op ops ih =>
    simp only [List.foldl_cons]
    apply ih
    · cases op with
      | enqueue n =>
        simp only [step]
        rw [(notification_init_total env s n).1]
        refine Multiset.nodup_cons.mpr ⟨?_, hnd⟩
        intro hmem
        exact absurd (hlt _ hmem) (lt_irrefl _)
      | tick data now idle => rw [(step_total env s _ (by intro n; simp)).1]; exact hnd
      | close i reason => rw [(step_total env s _ (by intro n; simp)).1]; exact hnd
      | recall_last now idle => rw [(step_total env s _ (by intro n; simp)).1]; exact hnd
      | close_all => rw [(step_total env s _ (by intro n; simp)).1]; exact hnd
      | pause now idle => rw [(step_total env s _ (by intro n; simp)).1]; exact hnd
      | unpause now idle => rw [(step_total env s _ (by intro n; simp)).1]; exact hnd
    · cases op with
      | enqueue n =>
        simp only [step]
        rw [(notification_init_total env s n).1, (notification_init_total env s n).2]
        intro i hi
        rcases Multiset.mem_cons.mp hi with h | h
        · omega
        · have := hlt i h; omega
      | tick data now idle =>
        rw [(step_total env s _ (by intro n; simp)).1, (step_total env s _ (by intro n; simp)).2]
        exact hlt
      | close i reason =>
        rw [(step_total env s _ (by intro n; simp)).1, (step_total env s _ (by intro n; simp)).2]
        exact hlt
      | recall_last now idle =>
        rw [(step_total env s _ (by intro n; simp)).1, (step_total env s _ (by intro n; simp)).2]
        exact hlt
      | close_all =>
        rw [(step_total env s _ (by intro n; simp)).1, (step_total env s _ (by intro n; simp)).2]
        exact hlt
      | pause now idle =>
        rw [(step_total env s _ (by intro n; simp)).1, (step_total env s _ (by intro n; simp)).2]
        exact hlt
      | unpause now idle =>
        rw [(step_total env s _ (by intro n; simp)).1, (step_total env s _ (by intro n; simp)).2]
        exact hlt

/-- C2: in every state reached from the empty queues by arrivals, ticks
(paused or not), closes, `history_pop` and `move_all_to_history`, no id occurs
twice in the three queues taken together, nor among them and the ids that
left.  A tick, a `history_pop` and every other event but an arrival keep the
multiset of the ids in the three queues plus the ids that left, add nothing to
the queues and take nothing back from the ids that left: an id leaves the
queues only into the log, as an eviction from the history or as the close of a
notification with `history_ignore`.  An arrival adds one fresh id. -/
theorem C2_partition_invariant (env : Env) (ops : List Op) :
    (live_ids (reach env ops)).Nodup ∧
    (live_ids (reach env ops) + gone_ids (reach env ops)).Nodup ∧
    (∀ data now idle,
        live_ids (run env data now idle (reach env ops))
            + gone_ids (run env data now idle (reach env ops))
          = live_ids (reach env ops) + gone_ids (reach env ops)) ∧
    (∀ now idle,
        live_ids (history_pop env now idle (reach env ops))
            + gone_ids (history_pop env now idle (reach env ops))
          = live_ids (reach env ops) + gone_ids (reach env ops)) ∧
    (∀ op, (∀ n, op ≠ Op.enqueue n) →
        live_ids (step env (reach env ops) op) + gone_ids (step env (reach env ops) op)
          = live_ids (reach env ops) + gone_ids (reach env ops)) ∧
    (∀ n,
        live_ids (step env (reach env ops) (Op.enqueue n))
            + gone_ids (step env (reach env ops) (Op.enqueue n))
          = (reach env ops).next_id ::ₘ (live_ids (reach env ops) + gone_ids (reach env ops))) ∧
    (∀ op, gone_ids (reach env ops) ≤ gone_ids (step env (reach env ops) op)) ∧
    (∀ op, (∀ n, op ≠ Op.enqueue n) →
        live_ids (step env (reach env ops) op) ≤ live_ids (reach env ops)) := by
  have h := foldl_step_nodup env ops init (by simp [init, live_ids, gone_ids, ids, gone_of])
    (by simp [init, live_ids, gone_ids, ids, gone_of])
  refine ⟨?_, h.1, fun data now idle => (run_total env data now idle _).1,
    fun now idle => (history_pop_total env now idle _).1,
    fun op hop => (step_total env _ op hop).1,
    fun n => (notification_init_total env _ n).1,
    fun op => gone_ids_le_of_log _ _ (step_log env _ op), ?_⟩
  · exact Multiset.nodup_of_le (Multiset.le_add_right _ _) h.1
  · intro op hop
    have hc := (step_total env (reach env ops) op hop).1
    have hg := gone_ids_le_of_log _ _ (step_log env (reach env ops) op)
    have h2 : live_ids (step env (reach env ops) op) + gone_ids (reach env ops)
        ≤ live_ids (reach env ops) + gone_ids (reach env ops) := by
      rw [← hc]
      exact add_le_add_left hg _
    exact le_of_add_le_add_right h2

/-- C2 at a concrete run: with `history_length = 1`, three arrivals (the
second with `history_ignore`), a tick and the closes of the first two leave
id 3 in the queues and ids 1 (evicted from the history) and 2 (closed with
`history_ignore`) among the ids that left; closing the third keeps the
multiset of all ids. -/
theorem C2_partition_invariant_witness :
    live_ids (reach (mk_env 1 (-1) 0)
        [Op.enqueue (mk_notification 0 0 0 0),
         Op.enqueue { mk_notification 0 0 0 0 with history_ignore := true },
         Op.enqueue (mk_notification 0 0 0 0), Op.tick false 1 false,
         Op.close 1 3, Op.close 2 3]) = {3} ∧
    gone_ids (reach (mk_env 1 (-1) 0)
        [Op.enqueue (mk_notification 0 0 0 0),
         Op.enqueue { mk_notification 0 0 0 0 with history_ignore := true },
         Op.enqueue (mk_notification 0 0 0 0), Op.tick false 1 false,
         Op.close 1 3, Op.close 2 3]) = {1, 2} ∧
    live_ids (step (mk_env 1 (-1) 0) (reach (mk_env 1 (-1) 0)
        [Op.enqueue (mk_notification 0 0 0 0),
         Op.enqueue { mk_notification 0 0 0 0 with history_ignore := true },
         Op.enqueue (mk_notification 0 0 0 0), Op.tick false 1 false,
         Op.close 1 3, Op.close 2 3]) (Op.close 3 3))
      + gone_ids (step (mk_env 1 (-1) 0) (reach (mk_env 1 (-1) 0)
        [Op.enqueue (mk_notification 0 0 0 0),
         Op.enqueue { mk_notification 0 0 0 0 with history_ignore := true },
         Op.enqueue (mk_notification 0 0 0 0), Op.tick false 1 false,
         Op.close 1 3, Op.close 2 3]) (Op.close 3 3))
      = live_ids (reach (mk_env 1 (-1) 0)
        [Op.enqueue (mk_notification 0 0 0 0),
         Op.enqueue { mk_notification 0 0 0 0 with history_ignore := true },
         Op.enqueue (mk_notification 0 0 0 0), Op.tick false 1 false,
         Op.close 1 3, Op.close 2 3])
      + gone_ids (reach (mk_env 1 (-1) 0)
        [Op.enqueue (mk_notification 0 0 0 0),
         Op.enqueue { mk_notification 0 0 0 0 with history_ignore := true },
         Op.enqueue (mk_notification 0 0 0 0), Op.tick false 1 false,
         Op.close 1 3, Op.close 2 3]) :=
  ⟨by decide, by decide,
   (C2_partition_invariant (mk_env 1 (-1) 0)
      [Op.enqueue (mk_notification 0 0 0 0),
       Op.enqueue { mk_notification 0 0 0 0 with history_ignore := true },
       Op.enqueue (mk_notification 0 0 0 0), Op.tick false 1 false,
       Op.close 1 3, Op.close 2 3]).2.2.2.2.1 (Op.close 3 3) (by intro n h; cases h)⟩

/-! ### C12: recall from the history -/

/-- C12: on an empty history `history_pop` returns the state as it is (no queue
changes, no tick).  On a history `h ++ [n]` it runs the tick of `wake_up` on
the state in which the history is `h`, and `n`, with `redisplayed = true`,
`start = 0` and its timeout forced to 0 exactly under `sticky_history`, is the
head of `queue`, ahead of every pending entry. -/
theorem C12_history_pop_recalls_tail (env : Env) (now : Int) (idle : Bool) (s : State) :
    (s.history = [] → history_pop env now idle s = s) ∧
    (∀ h n, s.history = h ++ [n] →
      history_pop env now idle s =
        wake_up env now idle
          { s with history := h,
                   queue := { n with redisplayed := true, start := 0,
                                     timeout := if env.settings.sticky_history then 0
                                                else n.timeout } :: s.queue }) := by
  constructor
  · intro h
    simp [history_pop, h]
  · intro h n hh
    simp [history_pop, hh]

/-- C12 at a concrete input: the history holds A and B and a pending entry of
higher urgency waits while the display is paused; the recall takes B, leaves
A, and B is the head of `queue` after the tick. -/
theorem C12_history_pop_recalls_tail_witness :
    (history_pop (mk_env 0 (-1) 0) 10 false
        { mk_state [{ mk_notification 3 0 7 0 with urgency := 2 }] []
            [mk_notification 1 4 5 0, mk_notification 2 4 5 0]
          with pause_display := true }).queue
      = [{ mk_notification 2 0 5 0 with redisplayed := true },
         { mk_notification 3 0 7 0 with urgency := 2 }] ∧
    (history_pop (mk_env 0 (-1) 0) 10 false
        { mk_state [{ mk_notification 3 0 7 0 with urgency := 2 }] []
            [mk_notification 1 4 5 0, mk_notification 2 4 5 0]
          with pause_display := true }).history = [mk_notification 1 4 5 0] ∧
    history_pop (mk_env 0 (-1) 0) 10 false
        { mk_state [{ mk_notification 3 0 7 0 with urgency := 2 }] []
            [mk_notification 1 4 5 0, mk_notification 2 4 5 0]
          with pause_display := true }
      = wake_up (mk_env 0 (-1) 0) 10 false
          { { mk_state [{ mk_notification 3 0 7 0 with urgency := 2 }] []
                [mk_notification 1 4 5 0, mk_notification 2 4 5 0]
              with pause_display := true }
            with history := [mk_notification 1 4 5 0],
                 queue := { mk_notification 2 4 5 0 with
                              redisplayed := true, start := 0,
                              timeout := if (mk_env 0 (-1) 0).settings.sticky_history then 0
                                         else (mk_notification 2 4 5 0).timeout } ::
                          { mk_state [{ mk_notification 3 0 7 0 with urgency := 2 }] []
                              [mk_notification 1 4 5 0, mk_notification 2 4 5 0]
                            with pause_display := true }.queue } :=
  ⟨by decide, by decide,
   (C12_history_pop_recalls_tail (mk_env 0 (-1) 0) 10 false
      { mk_state [{ mk_notification 3 0 7 0 with urgency := 2 }] []
          [mk_notification 1 4 5 0, mk_notification 2 4 5 0]
        with pause_display := true }).2 [mk_notification 1 4 5 0] (mk_notification 2 4 5 0) rfl⟩

/-! ### C17: the zero-delay wake -/

/-- C17, evaluated on the code: a displayed notification with timeout 5 started
at 1 and sampled at 6 has `ttl = 0`, so `get_sleep_time` returns 0, while
`check_timeouts` at the same clock value closes nothing (`6 - 1 > 5` fails)
and leaves it displayed. -/
theorem C17_wake_immediately_without_expiry :
    get_sleep_time (mk_env 0 (-1) 0) 6 [mk_notification 1 1 5 0] = 0 ∧
    (check_timeouts (mk_env 0 (-1) 0) 6 false
        (mk_state [] [mk_notification 1 1 5 0] [])).displayed = [mk_notification 1 1 5 0] ∧
    closes_of (check_timeouts (mk_env 0 (-1) 0) 6 false
        (mk_state [] [mk_notification 1 1 5 0] [])).log = [] := by
  decide

/-! ### C19: the age rule before it is due -/

/-- C19, evaluated on the code.  With threshold 5 a single sticky notification
of age 0 gives no wake-up at all (-1).  With threshold 60_000_000 a
notification of age 30_000_000 with 270_000_000 left to live gives a sleep of
60_000_000, past the 30_000_001 after which its age exceeds the threshold. -/
theorem C19_age_rule_sleeps_past_due :
    get_sleep_time (mk_env 0 5 0) 10 [mk_notification 1 10 0 10] = -1 ∧
    get_sleep_time (mk_env 0 60000000 0) 30000001 [mk_notification 1 1 300000000 1]
      = 60000000 ∧
    ¬ (60000000 : Int) ≤ 60000000 - (30000001 - 1) + 1 := by
  decide

/-! ### C18: the refresh once per second -/

/-- One iteration of the loop of `get_sleep_time`: either the notification is
overdue and the result is 0, or the loop goes on with a running minimum that
did not grow, stays non-negative, and is within the candidate of the age rule
that applies to the notification. -/
theorem get_sleep_time_loop_step (env : Env) (time : Int) (n : Notification)
    (iter : List Notification) (sleep : Int) :
    (n.timeout > 0 ∧ ¬ i64_sub n.timeout (i64_sub time n.start) > 0 ∧
      get_sleep_time_loop env time (n :: iter) sleep = 0) ∨
    (¬ (n.timeout > 0 ∧ ¬ i64_sub n.timeout (i64_sub time n.start) > 0) ∧
      ∃ sleep2, get_sleep_time_loop env time (n :: iter) sleep
          = get_sleep_time_loop env time iter sleep2 ∧
        sleep2 ≤ sleep ∧ (0 ≤ sleep → 0 ≤ sleep2) ∧
        (env.settings.show_age_threshold ≥ 0 →
          i64_sub time n.timestamp > env.settings.show_age_threshold →
          sleep2 ≤ 1000000 - i64_sub time n.timestamp % 1000000) ∧
        (env.settings.show_age_threshold ≥ 0 →
          ¬ i64_sub time n.timestamp > env.settings.show_age_threshold →
          i64_sub n.timeout (i64_sub time n.start) > env.settings.show_age_threshold →
          sleep2 ≤ env.settings.show_age_threshold)) := by
  by_cases hov : n.timeout > 0 ∧ ¬ i64_sub n.timeout (i64_sub time n.start) > 0
  · left
    refine ⟨hov.1, hov.2, ?_⟩
    unfold get_sleep_time_loop
    simp only [hov, not_false_eq_true, and_self, if_true]
  · right
    refine ⟨hov, ?_⟩
    refine ⟨(if env.settings.show_age_threshold ≥ 0 then
        if i64_sub time n.timestamp > env.settings.show_age_threshold then
          min (if n.timeout > 0 then min sleep (i64_sub n.timeout (i64_sub time n.start))
               else sleep)
            (G_USEC_PER_SEC - Int.tmod (i64_sub time n.timestamp) G_USEC_PER_SEC)
        else if i64_sub n.timeout (i64_sub time n.start) > env.settings.show_age_threshold then
          min (if n.timeout > 0 then min sleep (i64_sub n.timeout (i64_sub time n.start))
               else sleep)
            env.settings.show_age_threshold
        else (if n.timeout > 0 then min sleep (i64_sub n.timeout (i64_sub time n.start))
              else sleep)
      else (if n.timeout > 0 then min sleep (i64_sub n.timeout (i64_sub time n.start))
            else sleep)), ?_, ?_, ?_, ?_, ?_⟩
    · conv_lhs => unfold get_sleep_time_loop
      simp only [hov, if_false]
    · split_ifs <;> omega
    · intro h0
      unfold G_USEC_PER_SEC
      split_ifs with h1 h2 h3 h4 h2 h3 h4
      all_goals first
        | omega
        | (have hm := Int.tmod_eq_emod (a := i64_sub time n.timestamp) (b := 1000000)
              (by omega) (by omega)
           rw [hm]; omega)
    · intro hT hage
      unfold G_USEC_PER_SEC
      have hm := Int.tmod_eq_emod (a := i64_sub time n.timestamp) (b := 1000000)
        (by omega) (by omega)
      simp only [hT, hage, if_true, hm]
      split_ifs <;> omega
    · intro hT hage httl
      simp only [hT, hage, httl, if_true, if_false]
      split_ifs <;> omega

/-- The loop of `get_sleep_time` started with a non-negative running minimum
returns at most that minimum, at least -1, and a non-negative value when the
minimum is not the sentinel. -/
theorem get_sleep_time_loop_bounds (env : Env) (time : Int) (l : List Notification)
    (sleep : Int) (h0 : 0 ≤ sleep) :
    -1 ≤ get_sleep_time_loop env time l sleep ∧
    get_sleep_time_loop env time l sleep ≤ sleep ∧
    (sleep < G_MAXINT64 → 0 ≤ get_sleep_time_loop env time l sleep) := by
  induction l generalizing sleep with
  | nil =>
    unfold get_sleep_time_loop G_MAXINT64
    split_ifs <;> omega
  | cons n iter ih =>
    rcases get_sleep_time_loop_step env time n iter sleep with ⟨_, _, h⟩ | ⟨_, s2, h, hle, hnn, _, _⟩
    · rw [h]
      exact ⟨by omega, h0, fun _ => le_refl _⟩
    · rw [h]
      obtain ⟨i1, i2, i3⟩ := ih s2 (hnn h0)
      exact ⟨i1, le_trans i2 hle, fun hlt => i3 (lt_of_le_of_lt hle hlt)⟩

/-- With an age threshold configured, the loop of `get_sleep_time` returns at
most the time to the next full second of the age of every notification whose
age exceeds the threshold, and then a non-negative value. -/
theorem get_sleep_time_loop_aged (env : Env) (time : Int) (l : List Notification)
    (sleep : Int) (h0 : 0 ≤ sleep) (hT : env.settings.show_age_threshold ≥ 0)
    (n : Notification) (hn : n ∈ l)
    (hage : i64_sub time n.timestamp > env.settings.show_age_threshold) :
    0 ≤ get_sleep_time_loop env time l sleep ∧
    get_sleep_time_loop env time l sleep ≤ 1000000 - i64_sub time n.timestamp % 1000000 := by
  induction l generalizing sleep with
  | nil => simp at hn
  | cons m iter ih =>
    rcases get_sleep_time_loop_step env time m iter sleep with
      ⟨_, _, h⟩ | ⟨_, s2, h, hle, hnn, ha, _⟩
    · rw [h]
      exact ⟨le_refl _, by omega⟩
    · rw [h]
      rcases List.mem_cons.mp hn with hm | hm
      · subst hm
        have hb := ha hT hage
        obtain ⟨_, i2, i3⟩ := get_sleep_time_loop_bounds env time iter s2 (hnn h0)
        refine ⟨i3 ?_, le_trans i2 hb⟩
        unfold G_MAXINT64
        omega
      · exact ih s2 (hnn h0) hm

/-- C18: with an age threshold configured, if the age of some displayed
notification, as the code computes it, exceeds the threshold, `get_sleep_time`
returns a value between 0 and 1_000_000, never -1, and at most the time to
the next full second of the age of each such notification (also when some
notification is overdue: the result is then 0).  The age of the code is
`now - timestamp` whenever that subtraction does not overflow. -/
theorem C18_refresh_once_per_second (env : Env) (now : Int) (displayed : List Notification)
    (hT : env.settings.show_age_threshold ≥ 0)
    (hex : ∃ n ∈ displayed, i64_sub now n.timestamp > env.settings.show_age_threshold) :
    0 ≤ get_sleep_time env now displayed ∧
    get_sleep_time env now displayed ≤ 1000000 ∧
    (∀ n ∈ displayed, i64_sub now n.timestamp > env.settings.show_age_threshold →
        get_sleep_time env now displayed ≤ 1000000 - i64_sub now n.timestamp % 1000000) ∧
    (∀ n : Notification,
        -9223372036854775808 ≤ now - n.timestamp ∧ now - n.timestamp ≤ 9223372036854775807 →
        i64_sub now n.timestamp = now - n.timestamp) := by
  have h0 : (0 : Int) ≤ G_MAXINT64 := by unfold G_MAXINT64; omega
  obtain ⟨n, hn, hage⟩ := hex
  have h := get_sleep_time_loop_aged env now displayed G_MAXINT64 h0 hT n hn hage
  unfold get_sleep_time
  refine ⟨h.1, ?_, ?_, ?_⟩
  · have := h.2
    omega
  · intro m hm hmage
    exact (get_sleep_time_loop_aged env now displayed G_MAXINT64 h0 hT m hm hmage).2
  · intro m hm
    unfold i64_sub
    exact wrap64_of_range _ hm.1 hm.2

/-- C18 at a concrete input: threshold 2 s, a sticky notification of age 3.3 s
and a fresh timed one; the sleep is the 0.7 s to the next full second. -/
theorem C18_refresh_once_per_second_witness :
    get_sleep_time (mk_env 0 2000000 0) 7300000
        [mk_notification 1 7000000 0 4000000, mk_notification 2 7000000 60000000 7000000]
      = 700000 ∧
    get_sleep_time (mk_env 0 2000000 0) 7300000
        [mk_notification 1 7000000 0 4000000, mk_notification 2 7000000 60000000 7000000]
      ≤ 1000000 :=
  ⟨by decide,
   (C18_refresh_once_per_second (mk_env 0 2000000 0) 7300000
      [mk_notification 1 7000000 0 4000000, mk_notification 2 7000000 60000000 7000000]
      (by decide) ⟨mk_notification 1 7000000 0 4000000, by decide, by decide⟩).2.1⟩

/-! ### C20: the order after a pause -/

/-- Sorted insertion keeps the entries of the queue in their order. -/
theorem g_queue_insert_sorted_sublist (f : Notification → Notification → Int)
    (q : List Notification) (n : Notification) :
    q.Sublist (g_queue_insert_sorted f q n) := by
  induction q with
  | nil => simp
  | cons x rest ih =>
    unfold g_queue_insert_sorted
    split_ifs
    · exact List.Sublist.cons₂ x ih
    · exact List.Sublist.cons n (List.Sublist.refl _)

/-- Sorted insertion passes a prefix of entries that compare below the new one. -/
theorem g_queue_insert_sorted_front (f : Notification → Notification → Int)
    (pre post : List Notification) (n : Notification) (h : ∀ x ∈ pre, f x n < 0) :
    g_queue_insert_sorted f (pre ++ post) n = pre ++ g_queue_insert_sorted f post n := by
  induction pre with
  | nil => rfl
  | cons x rest ih =>
    have hx : f x n < 0 := h x (List.mem_cons_self _ _)
    simp only [List.cons_append]
    rw [g_queue_insert_sorted]
    simp only [hx, if_true]
    rw [ih (fun y hy => h y (List.mem_cons_of_mem _ hy))]

/-- Sorted insertion puts the new entry behind a prefix of entries that compare
below it. -/
theorem g_queue_insert_sorted_split (f : Notification → Notification → Int)
    (q : List Notification) (n : Notification) :
    ∃ pre post, q = pre ++ post ∧ g_queue_insert_sorted f q n = pre ++ n :: post ∧
      ∀ x ∈ pre, f x n < 0 := by
  induction q with
  | nil => exact ⟨[], [], rfl, rfl, by simp⟩
  | cons x rest ih =>
    by_cases hx : f x n < 0
    · obtain ⟨pre, post, h1, h2, h3⟩ := ih
      refine ⟨x :: pre, post, by rw [h1]; rfl, ?_, ?_⟩
      · rw [g_queue_insert_sorted]
        simp only [hx, if_true, h2, List.cons_append]
      · intro y hy
        rcases List.mem_cons.mp hy with h | h
        · rw [h]; exact hx
        · exact h3 y h
    · refine ⟨[], x :: rest, rfl, ?_, by simp⟩
      rw [g_queue_insert_sorted]
      simp only [hx, if_false, List.nil_append]

/-- The pause loop keeps the pending entries in their order. -/
theorem pause_loop_queue_sublist (env : Env) (l : List Notification) (s : State) :
    s.queue.Sublist (pause_loop env l s).queue := by
  induction l generalizing s with
  | nil => exact List.Sublist.refl _
  | cons a rest ih =>
    unfold pause_loop
    exact (g_queue_insert_sorted_sublist env.notification_cmp_data s.queue a).trans
      (ih { s with displayed := rest,
                   queue := g_queue_insert_sorted env.notification_cmp_data s.queue a })

/-- The pause loop leaves alone a prefix of `queue` whose entries compare below
every notification it inserts. -/
theorem pause_loop_queue_front (env : Env) (l : List Notification) (s : State)
    (pre post : List Notification) (hq : s.queue = pre ++ post)
    (h : ∀ x ∈ pre, ∀ d ∈ l, env.notification_cmp_data x d < 0) :
    (pause_loop env l s).queue = pre ++ (pause_loop env l { s with queue := post }).queue := by
  induction l generalizing s post with
  | nil => simpa [pause_loop] using hq
  | cons a rest ih =>
    unfold pause_loop
    have hins := g_queue_insert_sorted_front env.notification_cmp_data pre post a
      (fun x hx => h x hx a (List.mem_cons_self _ _))
    rw [ih { s with displayed := rest,
                    queue := g_queue_insert_sorted env.notification_cmp_data s.queue a }
      (g_queue_insert_sorted env.notification_cmp_data post a)
      (by simp only; rw [hq, hins])
      (fun x hx d hd => h x hx d (List.mem_cons_of_mem _ hd))]

/-- The pause loop on a sorted displayed queue, with a transitive comparator:
the demoted notifications appear in `queue` in the order they had. -/
theorem pause_loop_displayed_sublist (env : Env)
    (htrans : ∀ x y z, env.notification_cmp_data x y < 0 → env.notification_cmp_data y z < 0 →
      env.notification_cmp_data x z < 0)
    (l : List Notification) (s : State)
    (hsorted : l.Pairwise (fun a b => env.notification_cmp_data a b < 0)) :
    l.Sublist (pause_loop env l s).queue := by
  induction l generalizing s with
  | nil => exact List.nil_sublist _
  | cons a rest ih =>
    rw [List.pairwise_cons] at hsorted
    obtain ⟨ha, hrest⟩ := hsorted
    obtain ⟨pre, post, _, h2, h3⟩ :=
      g_queue_insert_sorted_split env.notification_cmp_data s.queue a
    unfold pause_loop
    have hpre : ∀ x ∈ pre ++ [a], ∀ d ∈ rest, env.notification_cmp_data x d < 0 := by
      intro x hx d hd
      rcases List.mem_append.mp hx with hx | hx
      · exact htrans x a d (h3 x hx) (ha d hd)
      · rw [List.mem_singleton.mp hx]; exact ha d hd
    rw [pause_loop_queue_front env rest _ (pre ++ [a]) post (by simp only; rw [h2]; simp) hpre]
    have := ih { s with displayed := rest, queue := post } hrest
    have h4 : (a :: rest).Sublist ((pre ++ [a]) ++ rest) := by
      simp only [List.append_assoc, List.singleton_append]
      exact List.sublist_append_right pre (a :: rest)
    refine h4.trans ?_
    exact List.Sublist.append (List.Sublist.refl _) this

/-- C20: with a comparator whose "below" relation is transitive and a displayed
queue sorted by it, the pause loop of `update_lists` puts the displayed
notifications into `queue`, whatever its order, so that they appear in the
order they had in `displayed`, and the pending notifications keep their order
too; the result holds exactly the notifications of both.  When nothing
expires and the user is not idle, the paused `update_lists` is this loop. -/
theorem C20_pause_preserves_order (env : Env)
    (htrans : ∀ x y z, env.notification_cmp_data x y < 0 → env.notification_cmp_data y z < 0 →
      env.notification_cmp_data x z < 0)
    (s : State)
    (hsorted : s.displayed.Pairwise (fun a b => env.notification_cmp_data a b < 0)) :
    s.displayed.Sublist (pause_loop env s.displayed s).queue ∧
    s.queue.Sublist (pause_loop env s.displayed s).queue ∧
    (pause_loop env s.displayed s).queue.Perm (s.queue ++ s.displayed) ∧
    (∀ now, s.pause_display = true → (∀ n ∈ s.displayed, expires now false n = false) →
      update_lists env now false s = pause_loop env s.displayed s) := by
  refine ⟨pause_loop_displayed_sublist env htrans s.displayed s hsorted,
    pause_loop_queue_sublist env s.displayed s, (pause_loop_spec env s.displayed s rfl).2.1, ?_⟩
  intro now hp hne
  have hct : check_timeouts env now false s = s := by
    unfold check_timeouts
    split_ifs
    · rfl
    · exact (check_timeouts_loop_no_expiry env now false s.displayed s hne).2.2.2 rfl
  unfold update_lists
  simp only [hct, hp, if_true]

/-- The comparator of the concrete scenarios is transitive. -/
theorem cmp_urgency_id_trans (x y z : Notification)
    (h1 : cmp_urgency_id x y < 0) (h2 : cmp_urgency_id y z < 0) : cmp_urgency_id x z < 0 := by
  unfold cmp_urgency_id at *
  split_ifs at h1 h2 ⊢ <;> omega

/-- C20 at a concrete input: an unsorted pending queue (a recalled entry of low
urgency in front of an urgent one) and three sorted displayed notifications. -/
theorem C20_pause_preserves_order_witness :
    (pause_loop (mk_env 0 (-1) 0)
        [{ mk_notification 1 4 0 0 with urgency := 2 }, mk_notification 2 4 0 0,
         mk_notification 3 4 0 0]
        (mk_state [{ mk_notification 9 0 0 0 with urgency := 0 },
                   { mk_notification 5 0 0 0 with urgency := 2 }]
          [{ mk_notification 1 4 0 0 with urgency := 2 }, mk_notification 2 4 0 0,
           mk_notification 3 4 0 0] [])).queue
      = [{ mk_notification 1 4 0 0 with urgency := 2 }, mk_notification 2 4 0 0,
         mk_notification 3 4 0 0, { mk_notification 9 0 0 0 with urgency := 0 },
         { mk_notification 5 0 0 0 with urgency := 2 }] ∧
    (mk_state [{ mk_notification 9 0 0 0 with urgency := 0 },
               { mk_notification 5 0 0 0 with urgency := 2 }]
      [{ mk_notification 1 4 0 0 with urgency := 2 }, mk_notification 2 4 0 0,
       mk_notification 3 4 0 0] []).displayed.Sublist
      (pause_loop (mk_env 0 (-1) 0)
        (mk_state [{ mk_notification 9 0 0 0 with urgency := 0 },
                   { mk_notification 5 0 0 0 with urgency := 2 }]
          [{ mk_notification 1 4 0 0 with urgency := 2 }, mk_notification 2 4 0 0,
           mk_notification 3 4 0 0] []).displayed
        (mk_state [{ mk_notification 9 0 0 0 with urgency := 0 },
                   { mk_notification 5 0 0 0 with urgency := 2 }]
          [{ mk_notification 1 4 0 0 with urgency := 2 }, mk_notification 2 4 0 0,
           mk_notification 3 4 0 0] [])).queue :=
  ⟨by decide,
   (C20_pause_preserves_order (mk_env 0 (-1) 0) cmp_urgency_id_trans
      (mk_state [{ mk_notification 9 0 0 0 with urgency := 0 },
                 { mk_notification 5 0 0 0 with urgency := 2 }]
        [{ mk_notification 1 4 0 0 with urgency := 2 }, mk_notification 2 4 0 0,
         mk_notification 3 4 0 0] [])
      (by decide)).1⟩

/-! ### C14: promotion -/

/-- The promotion loop: it pops the first `k` entries of `queue`, where `k` is
all of them without a positive limit and otherwise as many as fit under the
limit, stamps them with `start = now` and inserts them into `displayed`. -/
theorem promote_loop_spec (env : Env) (now : Int) (limit : Int) (l : List Notification)
    (s : State) (hq : s.queue = l) :
    ∃ k : Nat,
      (limit > 0 → (k : Int) = min (l.length : Int) (max (limit - s.displayed.length) 0)) ∧
      (limit ≤ 0 → k = l.length) ∧
      (promote_loop env now limit l s).queue = l.drop k ∧
      (promote_loop env now limit l s).displayed.Perm
        (s.displayed ++ (l.take k).map (fun n => { n with start := now })) := by
  induction l generalizing s with
  | nil =>
    refine ⟨0, ?_, ?_, ?_, ?_⟩
    · intro _; simp only [List.length_nil]; push_cast; omega
    · intro _; rfl
    · simpa [promote_loop] using hq
    · simp [promote_loop]
  | cons n rest ih =>
    unfold promote_loop
    by_cases hfull : limit > 0 ∧ (s.displayed.length : Int) ≥ limit
    · simp only [hfull, and_self, if_true]
      refine ⟨0, ?_, ?_, ?_, ?_⟩
      · intro _; simp only [List.length_cons]; push_cast; omega
      · intro h; omega
      · simpa using hq
      · simp
    · simp only [hfull, if_false]
      have key : ∀ s2 : State, s2.queue = rest →
          s2.displayed.Perm ({ n with start := now } :: s.displayed) →
          ∃ k : Nat,
            (limit > 0 → (k : Int)
              = min (((n :: rest).length : Nat) : Int) (max (limit - s.displayed.length) 0)) ∧
            (limit ≤ 0 → k = (n :: rest).length) ∧
            (promote_loop env now limit rest s2).queue = (n :: rest).drop k ∧
            (promote_loop env now limit rest s2).displayed.Perm
              (s.displayed ++ ((n :: rest).take k).map (fun n => { n with start := now })) := by
        intro s2 hq2 hd2
        obtain ⟨k, h1, h2, h3, h4⟩ := ih s2 hq2
        have hlen : s2.displayed.length = s.displayed.length + 1 := by
          simpa using hd2.length_eq
        refine ⟨k + 1, ?_, ?_, ?_, ?_⟩
        · intro hl
          have := h1 hl
          rw [hlen] at this
          simp only [List.length_cons]
          push_cast at this ⊢
          have hnf : (s.displayed.length : Int) < limit := by
            by_contra hc
            exact hfull ⟨hl, by omega⟩
          omega
        · intro hl
          simp only [List.length_cons, h2 hl]
        · simpa using h3
        · refine h4.trans ?_
          simp only [List.take_succ_cons, List.map_cons]
          refine (List.Perm.append_right _ hd2).trans ?_
          simp only [List.cons_append]
          exact List.perm_middle.symm
      split_ifs
      · exact key _ rfl (g_queue_insert_sorted_perm _ _ _)
      · exact key _ rfl (g_queue_insert_sorted_perm _ _ _)

/-- An expiry pass in which nothing expires keeps `queue`, the pause flag and
the ids of `displayed`; when the user is not idle it changes nothing. -/
theorem check_timeouts_no_expiry (env : Env) (now : Int) (idle : Bool) (s : State)
    (hne : ∀ n ∈ s.displayed, expires now idle n = false) :
    (check_timeouts env now idle s).queue = s.queue ∧
    ids (check_timeouts env now idle s).displayed = ids s.displayed ∧
    (check_timeouts env now idle s).pause_display = s.pause_display ∧
    (idle = false → check_timeouts env now idle s = s) := by
  unfold check_timeouts
  split_ifs
  · exact ⟨rfl, rfl, rfl, fun _ => rfl⟩
  · exact check_timeouts_loop_no_expiry env now idle s.displayed s hne

/-- C14: in a tick that is not paused and in which nothing expires,
`update_lists` promotes the first `k` entries of `queue`, in head-to-tail
order, each with `start = now`, and leaves the others in `queue` in their
order; `k` is the whole queue when the limit is not positive (layout height
0) and `min(p, max(L - d, 0))` for a limit `L >= 1`, `p` pending and `d`
displayed.  Afterwards `queue` is empty or `displayed` is full. -/
theorem C14_promotion_exact_and_greedy (env : Env) (now : Int) (idle : Bool) (s : State)
    (hp : s.pause_display = false)
    (hne : ∀ n ∈ s.displayed, expires now idle n = false) :
    ∃ k : Nat,
      (limit_of env > 0 → (k : Int)
        = min (s.queue.length : Int) (max (limit_of env - s.displayed.length) 0)) ∧
      (limit_of env ≤ 0 → k = s.queue.length) ∧
      (update_lists env now idle s).queue = s.queue.drop k ∧
      (update_lists env now idle s).displayed.Perm
        ((check_timeouts env now idle s).displayed
          ++ (s.queue.take k).map (fun n => { n with start := now })) ∧
      (idle = false → (update_lists env now idle s).displayed.Perm
        (s.displayed ++ (s.queue.take k).map (fun n => { n with start := now }))) ∧
      ((update_lists env now idle s).queue = [] ∨
        (limit_of env > 0 ∧
          ((update_lists env now idle s).displayed.length : Int) ≥ limit_of env)) := by
  obtain ⟨c1, c2, c3, c4⟩ := check_timeouts_no_expiry env now idle s hne
  have hlen : (check_timeouts env now idle s).displayed.length = s.displayed.length := by
    have := congrArg List.length c2
    simpa [ids] using this
  obtain ⟨k, h1, h2, h3, h4⟩ := promote_loop_spec env now (limit_of env)
    (check_timeouts env now idle s).queue (check_timeouts env now idle s) rfl
  have hu : update_lists env now idle s = promote_loop env now (limit_of env)
      (check_timeouts env now idle s).queue (check_timeouts env now idle s) := by
    unfold update_lists
    simp only [c3, hp, Bool.false_eq_true, if_false]
  rw [hu, c1]
  rw [c1, hlen] at h1
  rw [c1] at h2 h3 h4
  refine ⟨k, h1, h2, h3, h4, ?_, ?_⟩
  · intro hi
    have := c4 hi
    rw [this] at h4
    rw [this]
    exact h4
  · by_cases hl : limit_of env > 0
    · have hk := h1 hl
      have hlen2 := h4.length_eq
      simp only [List.length_append, List.length_map, List.length_take, hlen] at hlen2
      by_cases hall : k = s.queue.length
      · left
        rw [h3, hall]
        simp
      · right
        refine ⟨hl, ?_⟩
        rw [hlen2]
        push_cast
        have hkle : (k : Int) ≤ s.queue.length := by omega
        omega
    · left
      rw [h3, h2 (by omega)]
      simp

/-- C14 at a concrete input: height 3, one displayed and four pending
notifications: two are promoted, two stay pending, `displayed` is full. -/
theorem C14_promotion_exact_and_greedy_witness :
    (update_lists (mk_env 0 (-1) 3) 10 false
        (mk_state [mk_notification 2 0 0 0, mk_notification 3 0 0 0, mk_notification 4 0 0 0,
                   mk_notification 5 0 0 0] [mk_notification 1 4 0 0] [])).queue
      = [mk_notification 4 0 0 0, mk_notification 5 0 0 0] ∧
    (update_lists (mk_env 0 (-1) 3) 10 false
        (mk_state [mk_notification 2 0 0 0, mk_notification 3 0 0 0, mk_notification 4 0 0 0,
                   mk_notification 5 0 0 0] [mk_notification 1 4 0 0] [])).displayed
      = [mk_notification 1 4 0 0, mk_notification 2 10 0 0, mk_notification 3 10 0 0] ∧
    ((update_lists (mk_env 0 (-1) 3) 10 false
        (mk_state [mk_notification 2 0 0 0, mk_notification 3 0 0 0, mk_notification 4 0 0 0,
                   mk_notification 5 0 0 0] [mk_notification 1 4 0 0] [])).queue = [] ∨
      (limit_of (mk_env 0 (-1) 3) > 0 ∧
        ((update_lists (mk_env 0 (-1) 3) 10 false
          (mk_state [mk_notification 2 0 0 0, mk_notification 3 0 0 0, mk_notification 4 0 0 0,
                     mk_notification 5 0 0 0] [mk_notification 1 4 0 0] [])).displayed.length : Int)
          ≥ limit_of (mk_env 0 (-1) 3))) :=
  ⟨by decide, by decide,
   (C14_promotion_exact_and_greedy (mk_env 0 (-1) 3) 10 false
      (mk_state [mk_notification 2 0 0 0, mk_notification 3 0 0 0, mk_notification 4 0 0 0,
                 mk_notification 5 0 0 0] [mk_notification 1 4 0 0] [])
      rfl (by decide)).elim (fun _ h => h.2.2.2.2.2)⟩

/-! ### What the scheduling pass leaves alone -/

/-- `history_push` keeps the pause flag, the visibility and the timer statics,
and logs close events only. -/
theorem history_push_frame (env : Env) (s : State) (n : Notification) :
    (history_push env s n).pause_display = s.pause_display ∧
    (history_push env s n).visible = s.visible ∧
    (history_push env s n).timeout_cnt = s.timeout_cnt ∧
    (history_push env s n).next_timeout = s.next_timeout ∧
    ∃ ev, (history_push env s n).log = s.log ++ ev ∧ ∀ e ∈ ev, is_close_event e = true := by
  unfold history_push
  cases s.history with
  | nil => split_ifs <;> exact ⟨rfl, rfl, rfl, rfl, [], by simp, by simp⟩
  | cons a rest =>
    split_ifs
    · exact ⟨rfl, rfl, rfl, rfl, [Event.free a], rfl, by simp [is_close_event]⟩
    · exact ⟨rfl, rfl, rfl, rfl, [Event.free a], rfl, by simp [is_close_event]⟩
    · exact ⟨rfl, rfl, rfl, rfl, [], by simp, by simp⟩
    · exact ⟨rfl, rfl, rfl, rfl, [], by simp, by simp⟩

/-- `notification_close` keeps the pause flag, the visibility and the timer
statics, and logs close events only. -/
theorem notification_close_frame (env : Env) (s : State) (i : Nat) (reason : Int) :
    (notification_close env s i reason).pause_display = s.pause_display ∧
    (notification_close env s i reason).visible = s.visible ∧
    (notification_close env s i reason).timeout_cnt = s.timeout_cnt ∧
    (notification_close env s i reason).next_timeout = s.next_timeout ∧
    ∃ ev, (notification_close env s i reason).log = s.log ++ ev ∧
      ∀ e ∈ ev, is_close_event e = true := by
  have key : ∀ (t : State) (n : Notification), t.pause_display = s.pause_display →
      t.visible = s.visible → t.timeout_cnt = s.timeout_cnt → t.next_timeout = s.next_timeout →
      t.log = s.log ++ [Event.closed n reason] →
      (history_push env t n).pause_display = s.pause_display ∧
      (history_push env t n).visible = s.visible ∧
      (history_push env t n).timeout_cnt = s.timeout_cnt ∧
      (history_push env t n).next_timeout = s.next_timeout ∧
      ∃ ev, (history_push env t n).log = s.log ++ ev ∧ ∀ e ∈ ev, is_close_event e = true := by
    intro t n h1 h2 h3 h4 h5
    obtain ⟨f1, f2, f3, f4, ev, f5, f6⟩ := history_push_frame env t n
    refine ⟨f1.trans h1, f2.trans h2, f3.trans h3, f4.trans h4,
      [Event.closed n reason] ++ ev, by rw [f5, h5, List.append_assoc], ?_⟩
    intro e he
    rcases List.mem_append.mp he with h | h
    · rw [List.mem_singleton.mp h]; rfl
    · exact f6 e h
  unfold notification_close
  cases lookup s.displayed i with
  | some n => exact key _ n rfl rfl rfl rfl rfl
  | none =>
    cases lookup s.queue i with
    | some n => exact key _ n rfl rfl rfl rfl rfl
    | none => exact ⟨rfl, rfl, rfl, rfl, [], by simp, by simp⟩

/-- The expiry loop keeps the pause flag, the visibility and the timer
statics, and logs close events only. -/
theorem check_timeouts_loop_frame (env : Env) (now : Int) (idle : Bool)
    (iter : List Notification) (s : State) :
    (check_timeouts_loop env now idle iter s).pause_display = s.pause_display ∧
    (check_timeouts_loop env now idle iter s).visible = s.visible ∧
    (check_timeouts_loop env now idle iter s).timeout_cnt = s.timeout_cnt ∧
    (check_timeouts_loop env now idle iter s).next_timeout = s.next_timeout ∧
    ∃ ev, (check_timeouts_loop env now idle iter s).log = s.log ++ ev ∧
      ∀ e ∈ ev, is_close_event e = true := by
  induction iter generalizing s with
  | nil => exact ⟨rfl, rfl, rfl, rfl, [], by simp [check_timeouts_loop], by simp⟩
  | cons n iter ih =>
    unfold check_timeouts_loop
    split_ifs
    · exact ih (set_start s n.id now)
    · exact ih s
    · obtain ⟨a1, a2, a3, a4, e1, a5, a6⟩ := notification_close_frame env s n.id 1
      obtain ⟨b1, b2, b3, b4, e2, b5, b6⟩ := ih (notification_close env s n.id 1)
      refine ⟨b1.trans a1, b2.trans a2, b3.trans a3, b4.trans a4, e1 ++ e2,
        by rw [b5, a5, List.append_assoc], ?_⟩
      intro e he
      rcases List.mem_append.mp he with h | h
      · exact a6 e h
      · exact b6 e h
    · exact ih s

/-- The expiry pass keeps the pause flag, the visibility and the timer
statics, and logs close events only. -/
theorem check_timeouts_frame (env : Env) (now : Int) (idle : Bool) (s : State) :
    (check_timeouts env now idle s).pause_display = s.pause_display ∧
    (check_timeouts env now idle s).visible = s.visible ∧
    (check_timeouts env now idle s).timeout_cnt = s.timeout_cnt ∧
    (check_timeouts env now idle s).next_timeout = s.next_timeout ∧
    ∃ ev, (check_timeouts env now idle s).log = s.log ++ ev ∧
      ∀ e ∈ ev, is_close_event e = true := by
  unfold check_timeouts
  split_ifs
  · exact ⟨rfl, rfl, rfl, rfl, [], by simp, by simp⟩
  · exact check_timeouts_loop_frame env now idle s.displayed s

/-- The pause loop touches the two queues only. -/
theorem pause_loop_frame (env : Env) (l : List Notification) (s : State) :
    (pause_loop env l s).pause_display = s.pause_display ∧
    (pause_loop env l s).visible = s.visible ∧
    (pause_loop env l s).timeout_cnt = s.timeout_cnt ∧
    (pause_loop env l s).next_timeout = s.next_timeout ∧
    (pause_loop env l s).history = s.history ∧
    (pause_loop env l s).log = s.log := by
  induction l generalizing s with
  | nil => exact ⟨rfl, rfl, rfl, rfl, rfl, rfl⟩
  | cons n rest ih =>
    unfold pause_loop
    exact ih _

/-- The promotion loop keeps the pause flag, the visibility and the timer
statics, and logs script calls only. -/
theorem promote_loop_frame (env : Env) (now : Int) (limit : Int) (l : List Notification)
    (s : State) :
    (promote_loop env now limit l s).pause_display = s.pause_display ∧
    (promote_loop env now limit l s).visible = s.visible ∧
    (promote_loop env now limit l s).timeout_cnt = s.timeout_cnt ∧
    (promote_loop env now limit l s).next_timeout = s.next_timeout ∧
    ∃ ev, (promote_loop env now limit l s).log = s.log ++ ev ∧
      ∀ e ∈ ev, ∃ i, e = Event.run_script i := by
  induction l generalizing s with
  | nil => exact ⟨rfl, rfl, rfl, rfl, [], by simp [promote_loop], by simp⟩
  | cons n rest ih =>
    by_cases hfull : limit > 0 ∧ (s.displayed.length : Int) ≥ limit
    · have hs : promote_loop env now limit (n :: rest) s = s := by
        unfold promote_loop
        simp only [hfull, and_self, if_true]
      rw [hs]
      exact ⟨rfl, rfl, rfl, rfl, [], by simp, by simp⟩
    · unfold promote_loop
      simp only [hfull, if_false]
      split_ifs
      · obtain ⟨b1, b2, b3, b4, ev, b5, b6⟩ := ih
          { s with queue := rest, log := s.log ++ [Event.run_script n.id],
                   displayed := g_queue_insert_sorted env.notification_cmp_data s.displayed
                     { n with start := now } }
        refine ⟨b1, b2, b3, b4, [Event.run_script n.id] ++ ev, by rw [b5]; simp, ?_⟩
        intro e he
        rcases List.mem_append.mp he with h | h
        · exact ⟨n.id, List.mem_singleton.mp h⟩
        · exact b6 e h
      · exact ih _

/-- `update_lists` keeps the pause flag, the visibility and the timer statics;
it logs close events and script calls only, and no script call when paused. -/
theorem update_lists_frame (env : Env) (now : Int) (idle : Bool) (s : State) :
    (update_lists env now idle s).pause_display = s.pause_display ∧
    (update_lists env now idle s).visible = s.visible ∧
    (update_lists env now idle s).timeout_cnt = s.timeout_cnt ∧
    (update_lists env now idle s).next_timeout = s.next_timeout ∧
    ∃ ev, (update_lists env now idle s).log = s.log ++ ev ∧
      (∀ e ∈ ev, is_close_event e = true ∨ ∃ i, e = Event.run_script i) ∧
      (s.pause_display = true → ∀ e ∈ ev, is_close_event e = true) := by
  obtain ⟨a1, a2, a3, a4, e1, a5, a6⟩ := check_timeouts_frame env now idle s
  by_cases hp : (check_timeouts env now idle s).pause_display = true
  · have hu : update_lists env now idle s = pause_loop env
        (check_timeouts env now idle s).displayed (check_timeouts env now idle s) := by
      unfold update_lists
      simp only [hp, if_true]
    rw [hu]
    obtain ⟨b1, b2, b3, b4, _, b6⟩ := pause_loop_frame env
      (check_timeouts env now idle s).displayed (check_timeouts env now idle s)
    exact ⟨b1.trans a1, b2.trans a2, b3.trans a3, b4.trans a4, e1, by rw [b6, a5],
      fun e he => Or.inl (a6 e he), fun _ e he => a6 e he⟩
  · have hu : update_lists env now idle s = promote_loop env now (limit_of env)
        (check_timeouts env now idle s).queue (check_timeouts env now idle s) := by
      unfold update_lists
      simp only [hp, Bool.false_eq_true, if_false]
    rw [hu]
    obtain ⟨b1, b2, b3, b4, e2, b5, b6⟩ := promote_loop_frame env now (limit_of env)
      (check_timeouts env now idle s).queue (check_timeouts env now idle s)
    refine ⟨b1.trans a1, b2.trans a2, b3.trans a3, b4.trans a4, e1 ++ e2,
      by rw [b5, a5, List.append_assoc], ?_, ?_⟩
    · intro e he
      rcases List.mem_append.mp he with h | h
      · exact Or.inl (a6 e h)
      · exact Or.inr (b6 e h)
    · intro hs
      rw [a1] at hp
      exact absurd hs hp

/-- Events that are no `g_timeout_add` calls arm no timer. -/
theorem timers_of_append_of_no_timer (log ev : List Event)
    (h : ∀ e ∈ ev, ∀ i d, e ≠ Event.timeout_add i d) :
    timers_of (log ++ ev) = timers_of log := by
  unfold timers_of
  rw [List.filterMap_append]
  have : List.filterMap (fun e => match e with
      | Event.timeout_add interval deadline => some (interval, deadline)
      | _ => none) ev = [] := by
    rw [List.filterMap_eq_nil_iff]
    intro e he
    cases e with
    | timeout_add i d => exact absurd rfl (h _ he i d)
    | _ => rfl
  rw [this, List.append_nil]

/-- `update_lists` arms no timer. -/
theorem update_lists_timers (env : Env) (now : Int) (idle : Bool) (s : State) :
    timers_of (update_lists env now idle s).log = timers_of s.log := by
  obtain ⟨_, _, _, _, ev, h1, h2, _⟩ := update_lists_frame env now idle s
  rw [h1]
  apply timers_of_append_of_no_timer
  intro e he i d hc
  rcases h2 e he with h | ⟨j, h⟩
  · rw [hc] at h; simp [is_close_event] at h
  · rw [hc] at h; cases h
/-- The show and hide requests of `run`: afterwards the display is visible
exactly when something is displayed and the pause flag is not set; nothing
but the visibility and the log changes, and no show is requested when
paused. -/
theorem run_show_hide_spec (t : State) :
    (run_hide (run_show t)).queue = t.queue ∧
    (run_hide (run_show t)).displayed = t.displayed ∧
    (run_hide (run_show t)).history = t.history ∧
    (run_hide (run_show t)).pause_display = t.pause_display ∧
    (run_hide (run_show t)).timeout_cnt = t.timeout_cnt ∧
    (run_hide (run_show t)).next_timeout = t.next_timeout ∧
    ((run_hide (run_show t)).visible = true ↔ (t.displayed ≠ [] ∧ t.pause_display = false)) ∧
    ∃ ev, (run_hide (run_show t)).log = t.log ++ ev ∧
      (∀ e ∈ ev, e = Event.win_show ∨ e = Event.win_hide) ∧
      (t.pause_display = true → ∀ e ∈ ev, e = Event.win_hide) := by
  cases hv : t.visible <;> cases hp : t.pause_display <;> cases hd : t.displayed <;>
    simp [run_show, run_hide, x_win_show, x_win_hide, hv, hp, hd]

/-- The redraw and the timer stage of `run` on a state `x`: the queues, the
pause flag and the visibility stay; when `x` is visible, the sleep is not
negative and the guard holds, one timer is armed for `now + sleep`, recorded
as `next_timeout` and counted; otherwise the timer statics stay and no timer
is armed.  The log gets redraw and timer events only, none when not visible. -/
theorem run_draw_arm_spec (env : Env) (now : Int) (x : State) :
    (run_arm env now (run_draw x)).queue = x.queue ∧
    (run_arm env now (run_draw x)).displayed = x.displayed ∧
    (run_arm env now (run_draw x)).history = x.history ∧
    (run_arm env now (run_draw x)).pause_display = x.pause_display ∧
    (run_arm env now (run_draw x)).visible = x.visible ∧
    ((x.visible = true ∧ get_sleep_time env now x.displayed ≥ 0 ∧
        (x.timeout_cnt = 0 ∨ i64_add now (get_sleep_time env now x.displayed) < x.next_timeout) →
      (run_arm env now (run_draw x)).timeout_cnt = x.timeout_cnt + 1 ∧
      (run_arm env now (run_draw x)).next_timeout
        = i64_add now (get_sleep_time env now x.displayed) ∧
      timers_of (run_arm env now (run_draw x)).log = timers_of x.log ++
        [(Int.tdiv (get_sleep_time env now x.displayed) 1000 % 4294967296,
          i64_add now (get_sleep_time env now x.displayed))])) ∧
    (¬ (x.visible = true ∧ get_sleep_time env now x.displayed ≥ 0 ∧
        (x.timeout_cnt = 0 ∨ i64_add now (get_sleep_time env now x.displayed) < x.next_timeout)) →
      (run_arm env now (run_draw x)).timeout_cnt = x.timeout_cnt ∧
      (run_arm env now (run_draw x)).next_timeout = x.next_timeout ∧
      timers_of (run_arm env now (run_draw x)).log = timers_of x.log) ∧
    ∃ ev, (run_arm env now (run_draw x)).log = x.log ++ ev ∧
      (∀ e ∈ ev, e = Event.win_draw ∨ ∃ i d, e = Event.timeout_add i d) ∧
      (x.visible = false → ev = []) := by
  cases hv : x.visible
  · simp [run_arm, run_draw, hv]
  · by_cases hs : get_sleep_time env now x.displayed ≥ 0
    · by_cases hg : x.timeout_cnt = 0 ∨
          i64_add now (get_sleep_time env now x.displayed) < x.next_timeout
      · have hr : run_arm env now (run_draw x) =
            { x with log := x.log ++ [Event.win_draw] ++
                       [Event.timeout_add
                          (Int.tdiv (get_sleep_time env now x.displayed) 1000 % 4294967296)
                          (i64_add now (get_sleep_time env now x.displayed))],
                     next_timeout := i64_add now (get_sleep_time env now x.displayed),
                     timeout_cnt := x.timeout_cnt + 1 } := by
          simp only [run_arm, run_draw, x_win_draw, arm_timer, hv, if_true]
          simp only [hs, hg, if_true]
        rw [hr]
        refine ⟨rfl, rfl, rfl, rfl, hv, ?_, ?_, ?_⟩
        · intro _
          refine ⟨rfl, rfl, ?_⟩
          simp [timers_of, List.filterMap_append]
        · intro hc
          exact absurd ⟨rfl, hs, hg⟩ hc
        · refine ⟨_, List.append_assoc _ _ _, ?_, by simp⟩
          intro e he
          simp only [List.mem_cons, List.mem_singleton, List.not_mem_nil, or_false,
            List.cons_append, List.nil_append] at he
          rcases he with h | h
          · exact Or.inl h
          · exact Or.inr ⟨_, _, h⟩
      · have hr : run_arm env now (run_draw x) =
            { x with log := x.log ++ [Event.win_draw] } := by
          simp only [run_arm, run_draw, x_win_draw, arm_timer, hv, if_true]
          simp only [hs, hg, if_true, if_false]
        rw [hr]
        refine ⟨rfl, rfl, rfl, rfl, hv, ?_, ?_, ?_⟩
        · intro hc
          exact absurd hc.2.2 hg
        · intro _
          refine ⟨rfl, rfl, ?_⟩
          simp [timers_of, List.filterMap_append]
        · exact ⟨_, rfl, by simp, by simp⟩
    · have hr : run_arm env now (run_draw x) =
          { x with log := x.log ++ [Event.win_draw] } := by
        simp only [run_arm, run_draw, x_win_draw, arm_timer, hv, if_true]
        simp only [hs, if_false]
      rw [hr]
      refine ⟨rfl, rfl, rfl, rfl, hv, ?_, ?_, ?_⟩
      · intro hc
        exact absurd hc.2.1 hs
      · intro _
        refine ⟨rfl, rfl, ?_⟩
        simp [timers_of, List.filterMap_append]
      · exact ⟨_, rfl, by simp, by simp⟩
/-- The decrement of `run` touches the counter only. -/
theorem run_timer_fired_spec (data : Bool) (u : State) :
    (run_timer_fired data u).queue = u.queue ∧
    (run_timer_fired data u).displayed = u.displayed ∧
    (run_timer_fired data u).history = u.history ∧
    (run_timer_fired data u).pause_display = u.pause_display ∧
    (run_timer_fired data u).visible = u.visible ∧
    (run_timer_fired data u).next_timeout = u.next_timeout ∧
    (run_timer_fired data u).log = u.log ∧
    (run_timer_fired data u).timeout_cnt
      = (if data = true ∧ u.timeout_cnt > 0 then u.timeout_cnt - 1 else u.timeout_cnt) := by
  unfold run_timer_fired
  split_ifs <;> exact ⟨rfl, rfl, rfl, rfl, rfl, rfl, rfl, rfl⟩

/-- Visibility after a tick: the display is visible exactly when something is
displayed and the pause flag is not set; the tick keeps the pause flag. -/
theorem run_visible_spec (env : Env) (data : Bool) (now : Int) (idle : Bool) (s : State) :
    (run env data now idle s).pause_display = s.pause_display ∧
    ((run env data now idle s).visible = true ↔
      ((run env data now idle s).displayed ≠ [] ∧ s.pause_display = false)) := by
  obtain ⟨u1, _, _, _, _⟩ := update_lists_frame env now idle s
  obtain ⟨_, t2, _, t4, _, _, _, _⟩ := run_timer_fired_spec data (update_lists env now idle s)
  obtain ⟨_, w2, _, w4, _, _, w7, _⟩ :=
    run_show_hide_spec (run_timer_fired data (update_lists env now idle s))
  obtain ⟨_, x2, _, x4, x5, _, _, _⟩ := run_draw_arm_spec env now
    (run_hide (run_show (run_timer_fired data (update_lists env now idle s))))
  unfold run
  rw [x4, x5, x2, w4, w2, t4, t2, u1]
  rw [t2, t4, u1] at w7
  exact ⟨rfl, w7⟩

/-- The timer stage of a tick, in terms of the state after the tick: with `c`
the counter after the decrement of a timer callback, one timer is armed when
the display is visible, the sleep is not negative and `c = 0` or the deadline
is before `next_timeout`; it is then recorded and counted.  Otherwise no timer
is armed and `next_timeout` stays. -/
theorem run_timer_spec (env : Env) (data : Bool) (now : Int) (idle : Bool) (s : State) :
    ((run env data now idle s).visible = true ∧
        get_sleep_time env now (run env data now idle s).displayed ≥ 0 ∧
        ((if data = true ∧ s.timeout_cnt > 0 then s.timeout_cnt - 1 else s.timeout_cnt) = 0 ∨
          i64_add now (get_sleep_time env now (run env data now idle s).displayed)
            < s.next_timeout) →
      (run env data now idle s).timeout_cnt
        = (if data = true ∧ s.timeout_cnt > 0 then s.timeout_cnt - 1 else s.timeout_cnt) + 1 ∧
      (run env data now idle s).next_timeout
        = i64_add now (get_sleep_time env now (run env data now idle s).displayed) ∧
      timers_of (run env data now idle s).log = timers_of s.log ++
        [(Int.tdiv (get_sleep_time env now (run env data now idle s).displayed) 1000
            % 4294967296,
          i64_add now (get_sleep_time env now (run env data now idle s).displayed))]) ∧
    (¬ ((run env data now idle s).visible = true ∧
        get_sleep_time env now (run env data now idle s).displayed ≥ 0 ∧
        ((if data = true ∧ s.timeout_cnt > 0 then s.timeout_cnt - 1 else s.timeout_cnt) = 0 ∨
          i64_add now (get_sleep_time env now (run env data now idle s).displayed)
            < s.next_timeout)) →
      (run env data now idle s).timeout_cnt
        = (if data = true ∧ s.timeout_cnt > 0 then s.timeout_cnt - 1 else s.timeout_cnt) ∧
      (run env data now idle s).next_timeout = s.next_timeout ∧
      timers_of (run env data now idle s).log = timers_of s.log) := by
  obtain ⟨_, _, u3, u4, _⟩ := update_lists_frame env now idle s
  have ut := update_lists_timers env now idle s
  obtain ⟨_, _, _, _, _, t6, t7, t8⟩ := run_timer_fired_spec data (update_lists env now idle s)
  obtain ⟨_, _, _, _, w5, w6, _, ev, w8, w9, _⟩ :=
    run_show_hide_spec (run_timer_fired data (update_lists env now idle s))
  have wt : timers_of (run_hide (run_show (run_timer_fired data
      (update_lists env now idle s)))).log = timers_of s.log := by
    rw [w8, t7, timers_of_append_of_no_timer _ _ ?_, ut]
    intro e he i d hc
    rcases w9 e he with h | h <;> (rw [hc] at h; cases h)
  obtain ⟨_, x2, _, _, x5, x6, x7, _⟩ := run_draw_arm_spec env now
    (run_hide (run_show (run_timer_fired data (update_lists env now idle s))))
  have hrun : run env data now idle s = run_arm env now (run_draw (run_hide (run_show
      (run_timer_fired data (update_lists env now idle s))))) := rfl
  rw [← hrun] at x2 x5 x6 x7
  rw [← x2, ← x5, w5, w6, t6, t8, u3, u4, wt] at x6 x7
  exact ⟨x6, x7⟩
/-! ### C13: the paused tick -/

/-- An id of a queue is found by the lookup. -/
theorem lookup_of_mem_ids (q : List Notification) (i : Nat) (h : i ∈ ids q) :
    ∃ m, lookup q i = some m ∧ m.id = i := by
  induction q with
  | nil => simp [ids] at h
  | cons x rest ih =>
    by_cases hx : x.id = i
    · exact ⟨x, by simp [lookup, List.find?_cons, hx], hx⟩
    · have hi : i ∈ ids rest := by
        simp only [ids, List.map_cons, List.mem_cons] at h
        rcases h with h | h
        · exact absurd h.symm hx
        · exact h
      obtain ⟨m, h1, h2⟩ := ih hi
      refine ⟨m, ?_, h2⟩
      simp only [lookup] at h1 ⊢
      simp [List.find?_cons, hx, h1]

/-- The expiry loop never touches `queue`: every notification it closes is
still in `displayed` when it is visited. -/
theorem check_timeouts_loop_queue (env : Env) (now : Int) (idle : Bool)
    (iter : List Notification) (s : State)
    (h : (ids iter : Multiset Nat) ≤ (ids s.displayed : Multiset Nat)) :
    (check_timeouts_loop env now idle iter s).queue = s.queue := by
  induction iter generalizing s with
  | nil => rfl
  | cons n iter ih =>
    rw [ids_cons_coe] at h
    have hrest : (ids iter : Multiset Nat) ≤ (ids s.displayed : Multiset Nat) :=
      le_trans (Multiset.le_add_left _ _) h
    unfold check_timeouts_loop
    split_ifs
    · rw [ih (set_start s n.id now) (by rw [set_start_ids]; exact hrest)]
      rfl
    · exact ih s hrest
    · have hmem : n.id ∈ ids s.displayed := by
        have : n.id ∈ (ids s.displayed : Multiset Nat) :=
          Multiset.mem_of_le h (by simp)
        simpa using this
      obtain ⟨m, hm, hid⟩ := lookup_of_mem_ids s.displayed n.id hmem
      have hc : notification_close env s n.id 1 =
          history_push env { s with displayed := g_queue_remove s.displayed n.id,
                                    log := s.log ++ [Event.closed m 1] } m := by
        unfold notification_close
        rw [hm]
      have hids := lookup_remove_ids s.displayed n.id m hm
      rw [hid] at hids
      rw [hids] at h
      have h2 : (ids iter : Multiset Nat) ≤ (ids (g_queue_remove s.displayed n.id) : Multiset Nat) :=
        le_of_add_le_add_left h
      rw [ih (notification_close env s n.id 1)
        (by rw [hc, history_push_displayed]; exact h2), hc, history_push_queue]
    · exact ih s hrest

/-- The expiry pass never touches `queue`. -/
theorem check_timeouts_queue (env : Env) (now : Int) (idle : Bool) (s : State) :
    (check_timeouts env now idle s).queue = s.queue := by
  unfold check_timeouts
  split_ifs
  · rfl
  · exact check_timeouts_loop_queue env now idle s.displayed s (le_refl _)

/-- The log of a paused tick: closes of expired notifications, the evictions
they cause, and a hide request. -/
theorem run_paused_log (env : Env) (data : Bool) (now : Int) (idle : Bool) (s : State)
    (hp : s.pause_display = true) :
    ∃ ev, (run env data now idle s).log = s.log ++ ev ∧
      ∀ e ∈ ev, is_close_event e = true ∨ e = Event.win_hide := by
  obtain ⟨u1, _, _, _, e1, u5, _, u7⟩ := update_lists_frame env now idle s
  obtain ⟨_, _, _, t4, _, _, t7, _⟩ := run_timer_fired_spec data (update_lists env now idle s)
  obtain ⟨_, w2, _, w4, _, _, w7, e2, w8, _, w10⟩ :=
    run_show_hide_spec (run_timer_fired data (update_lists env now idle s))
  obtain ⟨_, _, _, _, _, _, _, e3, x8, _, x10⟩ := run_draw_arm_spec env now
    (run_hide (run_show (run_timer_fired data (update_lists env now idle s))))
  have hpt : (run_timer_fired data (update_lists env now idle s)).pause_display = true := by
    rw [t4, u1, hp]
  have hvis : (run_hide (run_show (run_timer_fired data
      (update_lists env now idle s)))).visible = false := by
    cases hv : (run_hide (run_show (run_timer_fired data
      (update_lists env now idle s)))).visible
    · rfl
    · have := (w7.mp hv).2
      rw [hpt] at this
      cases this
  have he3 := x10 hvis
  refine ⟨e1 ++ e2, ?_, ?_⟩
  · unfold run
    rw [x8, he3, List.append_nil, w8, t7, u5, List.append_assoc]
  · intro e he
    rcases List.mem_append.mp he with h | h
    · exact Or.inl (u7 hp e h)
    · exact Or.inr (w10 hpt e h)

/-- C13: a tick with the pause flag set, from any state and for either kind of
call, leaves `displayed` empty and the display not visible, keeps every
pending notification in `queue` as it is and in order (nothing is promoted),
arms no timer, and logs nothing but closes of expired notifications, the
evictions they cause and a hide request: no script call, no show request, no
redraw. -/
theorem C13_paused_tick (env : Env) (data : Bool) (now : Int) (idle : Bool) (s : State)
    (hp : s.pause_display = true) :
    (run env data now idle s).displayed = [] ∧
    (run env data now idle s).visible = false ∧
    s.queue.Sublist (run env data now idle s).queue ∧
    timers_of (run env data now idle s).log = timers_of s.log ∧
    ∃ ev, (run env data now idle s).log = s.log ++ ev ∧
      ∀ e ∈ ev, is_close_event e = true ∨ e = Event.win_hide := by
  obtain ⟨q1, q2, _⟩ := run_queues env data now idle s
  obtain ⟨c1, _⟩ := check_timeouts_frame env now idle s
  have hu : update_lists env now idle s = pause_loop env
      (check_timeouts env now idle s).displayed (check_timeouts env now idle s) := by
    unfold update_lists
    simp only [c1, hp, if_true]
  have hd : (run env data now idle s).displayed = [] := by
    rw [q2, hu]
    exact (pause_loop_spec env _ _ rfl).1
  obtain ⟨ev, h1, h2⟩ := run_paused_log env data now idle s hp
  refine ⟨hd, ?_, ?_, ?_, ev, h1, h2⟩
  · cases hv : (run env data now idle s).visible
    · rfl
    · have := ((run_visible_spec env data now idle s).2.mp hv).1
      exact absurd hd this
  · rw [q1, hu]
    have := pause_loop_queue_sublist env (check_timeouts env now idle s).displayed
      (check_timeouts env now idle s)
    rw [check_timeouts_queue] at this
    exact this
  · rw [h1]
    apply timers_of_append_of_no_timer
    intro e he i d hc
    rcases h2 e he with h | h
    · rw [hc] at h; simp [is_close_event] at h
    · rw [hc] at h; cases h

/-- C13 at a concrete input: paused and visible, one pending and two displayed
notifications of which one expires: the tick closes it, hides the display and
moves the other to `queue`. -/
theorem C13_paused_tick_witness :
    (run (mk_env 0 (-1) 0) false 10 false
        { mk_state [mk_notification 3 0 0 0] [mk_notification 1 2 5 0, mk_notification 2 8 5 0] []
          with pause_display := true, visible := true }).log
      = [Event.closed (mk_notification 1 2 5 0) 1, Event.win_hide] ∧
    (run (mk_env 0 (-1) 0) false 10 false
        { mk_state [mk_notification 3 0 0 0] [mk_notification 1 2 5 0, mk_notification 2 8 5 0] []
          with pause_display := true, visible := true }).queue
      = [mk_notification 2 8 5 0, mk_notification 3 0 0 0] ∧
    (run (mk_env 0 (-1) 0) false 10 false
        { mk_state [mk_notification 3 0 0 0] [mk_notification 1 2 5 0, mk_notification 2 8 5 0] []
          with pause_display := true, visible := true }).displayed = [] :=
  ⟨by decide, by decide,
   (C13_paused_tick (mk_env 0 (-1) 0) false 10 false
      { mk_state [mk_notification 3 0 0 0] [mk_notification 1 2 5 0, mk_notification 2 8 5 0] []
        with pause_display := true, visible := true } rfl).1⟩

/-! ### C11: two ticks, two timers -/

/-- C11 as stated fails: from the initial state a notification with timeout
5000 arrives and is shown by a tick at 1000 (sleep 5000, deadline 6000), a
notification with timeout 2000 arrives and a second tick at 1000 computes the
earlier deadline 3000; both ticks call `g_timeout_add`, and two timers are
armed and not fired. -/
theorem C11_both_ticks_arm_a_timer :
    get_sleep_time (mk_env 0 (-1) 0) 1000
      (reach (mk_env 0 (-1) 0)
        [Op.enqueue (mk_notification 0 0 5000 0), Op.tick false 1000 false]).displayed = 5000 ∧
    get_sleep_time (mk_env 0 (-1) 0) 1000
      (reach (mk_env 0 (-1) 0)
        [Op.enqueue (mk_notification 0 0 5000 0), Op.tick false 1000 false,
         Op.enqueue (mk_notification 0 0 2000 0), Op.tick false 1000 false]).displayed = 2000 ∧
    timers_of (reach (mk_env 0 (-1) 0)
        [Op.enqueue (mk_notification 0 0 5000 0), Op.tick false 1000 false,
         Op.enqueue (mk_notification 0 0 2000 0), Op.tick false 1000 false]).log
      = [(5, 6000), (2, 3000)] ∧
    (loop_reach (mk_env 0 (-1) 0)
        [LoopEv.op (Op.enqueue (mk_notification 0 0 5000 0)),
         LoopEv.op (Op.tick false 1000 false),
         LoopEv.op (Op.enqueue (mk_notification 0 0 2000 0)),
         LoopEv.op (Op.tick false 1000 false)]).armed = [6000, 3000] := by
  decide

/-- C11, amended: starting with no outstanding timer (`timeout_cnt = 0`), when
two out-of-band ticks are both visible and compute non-negative sleeps, the
second an earlier deadline than the first, and no timer fires or is armed in
between, then each tick arms a timer: first the one for the later deadline,
then the one for the earlier deadline.  Afterwards `timeout_cnt` is 2 and
`next_timeout` is the earlier deadline. -/
theorem C11_earlier_deadline_arms_second_timer (env : Env) (s u : State) (now1 now2 : Int) (idle1 idle2 : Bool)
    (h0 : s.timeout_cnt = 0)
    (hv1 : (run env false now1 idle1 s).visible = true)
    (hs1 : get_sleep_time env now1 (run env false now1 idle1 s).displayed ≥ 0)
    (hu1 : u.timeout_cnt = (run env false now1 idle1 s).timeout_cnt)
    (hu2 : u.next_timeout = (run env false now1 idle1 s).next_timeout)
    (hu3 : timers_of u.log = timers_of (run env false now1 idle1 s).log)
    (hv2 : (run env false now2 idle2 u).visible = true)
    (hs2 : get_sleep_time env now2 (run env false now2 idle2 u).displayed ≥ 0)
    (hearlier : i64_add now2 (get_sleep_time env now2 (run env false now2 idle2 u).displayed)
      < i64_add now1 (get_sleep_time env now1 (run env false now1 idle1 s).displayed)) :
    timers_of (run env false now2 idle2 u).log = timers_of s.log ++
      [(Int.tdiv (get_sleep_time env now1 (run env false now1 idle1 s).displayed) 1000
          % 4294967296,
        i64_add now1 (get_sleep_time env now1 (run env false now1 idle1 s).displayed)),
       (Int.tdiv (get_sleep_time env now2 (run env false now2 idle2 u).displayed) 1000
          % 4294967296,
        i64_add now2 (get_sleep_time env now2 (run env false now2 idle2 u).displayed))] ∧
    (run env false now2 idle2 u).timeout_cnt = 2 ∧
    (run env false now2 idle2 u).next_timeout
      = i64_add now2 (get_sleep_time env now2 (run env false now2 idle2 u).displayed) := by
  have a := (run_timer_spec env false now1 idle1 s).1
  simp only [Bool.false_eq_true, false_and, if_false] at a
  obtain ⟨a1, a2, a3⟩ := a ⟨hv1, hs1, Or.inl h0⟩
  have b := (run_timer_spec env false now2 idle2 u).1
  simp only [Bool.false_eq_true, false_and, if_false] at b
  obtain ⟨b1, b2, b3⟩ := b ⟨hv2, hs2, Or.inr (by rw [hu2, a2]; exact hearlier)⟩
  refine ⟨?_, ?_, b2⟩
  · rw [b3, hu3, a3, List.append_assoc]
    rfl
  · rw [b1, hu1, a1, h0]
    rfl

/-- C11, amended, at the scenario: deadlines 6000 and then 3000. -/
theorem C11_earlier_deadline_arms_second_timer_witness :
    timers_of (run (mk_env 0 (-1) 0) false 1000 false
        (notification_init (mk_env 0 (-1) 0)
          (run (mk_env 0 (-1) 0) false 1000 false
            (notification_init (mk_env 0 (-1) 0) init (mk_notification 0 0 5000 0)))
          (mk_notification 0 0 2000 0))).log = [(5, 6000), (2, 3000)] ∧
    (run (mk_env 0 (-1) 0) false 1000 false
        (notification_init (mk_env 0 (-1) 0)
          (run (mk_env 0 (-1) 0) false 1000 false
            (notification_init (mk_env 0 (-1) 0) init (mk_notification 0 0 5000 0)))
          (mk_notification 0 0 2000 0))).timeout_cnt = 2 :=
  ⟨by decide,
   (C11_earlier_deadline_arms_second_timer (mk_env 0 (-1) 0)
      (notification_init (mk_env 0 (-1) 0) init (mk_notification 0 0 5000 0))
      (notification_init (mk_env 0 (-1) 0)
        (run (mk_env 0 (-1) 0) false 1000 false
          (notification_init (mk_env 0 (-1) 0) init (mk_notification 0 0 5000 0)))
        (mk_notification 0 0 2000 0))
      1000 1000 false false
      (by decide) (by decide) (by decide) (by decide) (by decide) (by decide) (by decide)
      (by decide) (by decide)).2.1⟩
/-! ### C16: the timer counter -/

/-- The timers armed between two states, read off the log. -/
theorem new_timers_of_append (s t : State) (new : List (Int × Int))
    (h : timers_of t.log = timers_of s.log ++ new) :
    new_timers s t = new.map (fun p => p.2) := by
  unfold new_timers
  rw [h, List.drop_left]

/-- Close events arm no timer. -/
theorem timers_of_append_of_close (log ev : List Event)
    (h : ∀ e ∈ ev, is_close_event e = true) : timers_of (log ++ ev) = timers_of log := by
  apply timers_of_append_of_no_timer
  intro e he i d hc
  have := h e he
  rw [hc] at this
  simp [is_close_event] at this

/-- A close keeps the counter and arms no timer. -/
theorem notification_close_timers (env : Env) (s : State) (i : Nat) (reason : Int) :
    (notification_close env s i reason).timeout_cnt = s.timeout_cnt ∧
    timers_of (notification_close env s i reason).log = timers_of s.log := by
  obtain ⟨_, _, h3, _, ev, h5, h6⟩ := notification_close_frame env s i reason
  exact ⟨h3, by rw [h5]; exact timers_of_append_of_close _ _ h6⟩

/-- The first loop of `move_all_to_history` keeps the counter and arms no timer. -/
theorem move_displayed_timers (env : Env) (fuel : Nat) (s : State) :
    (move_displayed env fuel s).timeout_cnt = s.timeout_cnt ∧
    timers_of (move_displayed env fuel s).log = timers_of s.log := by
  induction fuel generalizing s with
  | zero => exact ⟨rfl, rfl⟩
  | succ k ih =>
    unfold move_displayed
    cases s.displayed with
    | nil => exact ⟨rfl, rfl⟩
    | cons n rest =>
      simp only
      obtain ⟨a1, a2⟩ := notification_close_timers env s n.id 2
      obtain ⟨b1, b2⟩ := ih (notification_close env s n.id 2)
      exact ⟨b1.trans a1, b2.trans a2⟩

/-- The second loop of `move_all_to_history` keeps the counter and arms no
timer. -/
theorem move_queue_timers (env : Env) (fuel : Nat) (s : State) :
    (move_queue env fuel s).timeout_cnt = s.timeout_cnt ∧
    timers_of (move_queue env fuel s).log = timers_of s.log := by
  induction fuel generalizing s with
  | zero => exact ⟨rfl, rfl⟩
  | succ k ih =>
    unfold move_queue
    cases s.queue with
    | nil => exact ⟨rfl, rfl⟩
    | cons n rest =>
      simp only
      obtain ⟨a1, a2⟩ := notification_close_timers env s n.id 2
      obtain ⟨b1, b2⟩ := ih (notification_close env s n.id 2)
      exact ⟨b1.trans a1, b2.trans a2⟩

/-- The counter after a tick: the callback of a timer takes one off a positive
counter, and every timer the tick arms adds one; a tick arms at most one. -/
theorem run_counts (env : Env) (data : Bool) (now : Int) (idle : Bool) (s : State) :
    ∃ new, timers_of (run env data now idle s).log = timers_of s.log ++ new ∧
      new.length ≤ 1 ∧
      (run env data now idle s).timeout_cnt
        = (if data = true ∧ s.timeout_cnt > 0 then s.timeout_cnt - 1 else s.timeout_cnt)
          + new.length := by
  obtain ⟨h1, h2⟩ := run_timer_spec env data now idle s
  by_cases ha : (run env data now idle s).visible = true ∧
      get_sleep_time env now (run env data now idle s).displayed ≥ 0 ∧
      ((if data = true ∧ s.timeout_cnt > 0 then s.timeout_cnt - 1 else s.timeout_cnt) = 0 ∨
        i64_add now (get_sleep_time env now (run env data now idle s).displayed)
          < s.next_timeout)
  · obtain ⟨a1, _, a3⟩ := h1 ha
    exact ⟨_, a3, by simp, by rw [a1]; simp⟩
  · obtain ⟨a1, _, a3⟩ := h2 ha
    exact ⟨[], by rw [a3]; simp, by simp, by rw [a1]; simp⟩

/-- The counter after an event that is no timer callback: every timer armed
adds one. -/
theorem step_counts (env : Env) (s : State) (o : Op)
    (ho : ∀ now idle, o ≠ Op.tick true now idle) :
    ∃ new, timers_of (step env s o).log = timers_of s.log ++ new ∧
      (step env s o).timeout_cnt = s.timeout_cnt + new.length := by
  have hrun : ∀ (t : State) (now : Int) (idle : Bool), t.timeout_cnt = s.timeout_cnt →
      timers_of t.log = timers_of s.log →
      ∃ new, timers_of (run env false now idle t).log = timers_of s.log ++ new ∧
        (run env false now idle t).timeout_cnt = s.timeout_cnt + new.length := by
    intro t now idle h1 h2
    obtain ⟨new, a1, _, a3⟩ := run_counts env false now idle t
    simp only [Bool.false_eq_true, false_and, if_false] at a3
    exact ⟨new, by rw [a1, h2], by rw [a3, h1]⟩
  cases o with
  | enqueue n => exact ⟨[], by simp [step, notification_init], by simp [step, notification_init]⟩
  | tick data now idle =>
    cases data with
    | true => exact absurd rfl (ho now idle)
    | false => exact hrun s now idle rfl rfl
  | close i reason =>
    obtain ⟨a1, a2⟩ := notification_close_timers env s i reason
    exact ⟨[], by simp [step, a2], by simp [step, a1]⟩
  | recall_last now idle =>
    simp only [step, history_pop]
    cases s.history.getLast? with
    | none => exact ⟨[], by simp, by simp⟩
    | some n => exact hrun _ now idle rfl rfl
  | close_all =>
    simp only [step, move_all_to_history]
    obtain ⟨a1, a2⟩ := move_displayed_timers env s.displayed.length s
    obtain ⟨b1, b2⟩ := move_queue_timers env (move_displayed env s.displayed.length s).queue.length
      (move_displayed env s.displayed.length s)
    exact ⟨[], by rw [b2, a2]; simp, by rw [b1, a1]; simp⟩
  | pause now idle => exact hrun _ now idle rfl rfl
  | unpause now idle => exact hrun _ now idle rfl rfl

/-- One dispatch of the main loop keeps the counter equal to the number of
armed timers. -/
theorem loop_step_counter (env : Env) (l : Loop) (ev : LoopEv)
    (h : l.st.timeout_cnt = (l.armed.length : Int)) :
    (loop_step env l ev).st.timeout_cnt = ((loop_step env l ev).armed.length : Int) := by
  cases ev with
  | fire k now idle =>
    unfold loop_step
    by_cases hk : k < l.armed.length
    · simp only [hk, if_true]
      obtain ⟨new, a1, _, a3⟩ := run_counts env true now idle l.st
      rw [new_timers_of_append _ _ new a1, a3]
      have hpos : l.st.timeout_cnt > 0 := by rw [h]; exact_mod_cast Nat.lt_of_le_of_lt (Nat.zero_le k) hk
      simp only [hpos, and_self, if_true, List.length_append, List.length_map,
        List.length_eraseIdx, hk]
      rw [h]
      push_cast
      omega
    · simp only [hk, if_false]
      exact h
  | op o =>
    have hgen : ∀ (ho : ∀ now idle, o ≠ Op.tick true now idle),
        (step env l.st o).timeout_cnt
          = ((l.armed ++ new_timers l.st (step env l.st o)).length : Int) := by
      intro ho
      obtain ⟨new, a1, a2⟩ := step_counts env l.st o ho
      rw [new_timers_of_append _ _ new a1, a2, h]
      simp
    cases o with
    | tick data now idle =>
      cases data with
      | true => exact h
      | false => exact hgen (by intro _ _ hc; cases hc)
    | enqueue n => exact hgen (by intro _ _ hc; cases hc)
    | close i reason => exact hgen (by intro _ _ hc; cases hc)
    | recall_last now idle => exact hgen (by intro _ _ hc; cases hc)
    | close_all => exact hgen (by intro _ _ hc; cases hc)
    | pause now idle => exact hgen (by intro _ _ hc; cases hc)
    | unpause now idle => exact hgen (by intro _ _ hc; cases hc)

/-- Every run of the main loop from a state where the counter is the number of
armed timers ends in such a state. -/
theorem foldl_loop_step_counter (env : Env) (evs : List LoopEv) (l : Loop)
    (h : l.st.timeout_cnt = (l.armed.length : Int)) :
    (evs.foldl (loop_step env) l).st.timeout_cnt
      = ((evs.foldl (loop_step env) l).armed.length : Int) := by
  induction evs generalizing l with
  | nil => exact h
  | cons ev evs ih =>
    simp only [List.foldl_cons]
    exact ih _ (loop_step_counter env l ev h)

/-- C16: in every state the main loop reaches from the initial state by
out-of-band events and by callbacks of armed timers, `timeout_cnt` is the
number of timers that are armed and have not fired; it is never negative.
The callback of an armed timer takes exactly one off it, and a tick adds
exactly one for each timer it arms. -/
theorem C16_timer_counter_invariant (env : Env) (evs : List LoopEv) :
    (loop_reach env evs).st.timeout_cnt = ((loop_reach env evs).armed.length : Int) ∧
    0 ≤ (loop_reach env evs).st.timeout_cnt ∧
    (∀ k now idle, k < (loop_reach env evs).armed.length →
      (run_timer_fired true (update_lists env now idle (loop_reach env evs).st)).timeout_cnt
        = (loop_reach env evs).st.timeout_cnt - 1) ∧
    (∀ data now idle, ∃ new,
      timers_of (run env data now idle (loop_reach env evs).st).log
        = timers_of (loop_reach env evs).st.log ++ new ∧
      (run env data now idle (loop_reach env evs).st).timeout_cnt
        = (run_timer_fired data (update_lists env now idle (loop_reach env evs).st)).timeout_cnt
          + new.length) := by
  have hinv := foldl_loop_step_counter env evs { st := init, armed := [] } rfl
  have hinv2 : (loop_reach env evs).st.timeout_cnt = ((loop_reach env evs).armed.length : Int) :=
    hinv
  have hcnt : ∀ data now idle,
      (run_timer_fired data (update_lists env now idle (loop_reach env evs).st)).timeout_cnt
        = (if data = true ∧ (loop_reach env evs).st.timeout_cnt > 0
           then (loop_reach env evs).st.timeout_cnt - 1
           else (loop_reach env evs).st.timeout_cnt) := by
    intro data now idle
    obtain ⟨_, _, u3, _⟩ := update_lists_frame env now idle (loop_reach env evs).st
    rw [(run_timer_fired_spec data _).2.2.2.2.2.2.2, u3]
  refine ⟨hinv2, by rw [hinv2]; exact Int.natCast_nonneg _, ?_, ?_⟩
  · intro k now idle hk
    rw [hcnt]
    have hpos : (loop_reach env evs).st.timeout_cnt > 0 := by
      rw [hinv2]; exact_mod_cast Nat.lt_of_le_of_lt (Nat.zero_le k) hk
    simp only [hpos, and_self, if_true]
  · intro data now idle
    obtain ⟨new, a1, _, a3⟩ := run_counts env data now idle (loop_reach env evs).st
    exact ⟨new, a1, by rw [a3, hcnt]⟩

/-- C16 at the timer scenario: two timers armed, counter 2, and the callback of
the second one takes one off. -/
theorem C16_timer_counter_invariant_witness :
    (loop_reach (mk_env 0 (-1) 0) three_timeouts).st.timeout_cnt = 2 ∧
    (loop_reach (mk_env 0 (-1) 0) three_timeouts).armed = [6000, 3000] ∧
    (run_timer_fired true (update_lists (mk_env 0 (-1) 0) 3001 false
        (loop_reach (mk_env 0 (-1) 0) three_timeouts).st)).timeout_cnt
      = (loop_reach (mk_env 0 (-1) 0) three_timeouts).st.timeout_cnt - 1 :=
  ⟨by decide, by decide,
   (C16_timer_counter_invariant (mk_env 0 (-1) 0) three_timeouts).2.2.1 1 3001 false
     (by decide)⟩

/-! ### C15: a suppressed timer that was needed -/

/-- C15, evaluated on the code.  After the timer scenario two timers are armed,
for 6000 and 3000, and `next_timeout` is 3000.  The timer for 3000 fires at
3001: the tick closes the expired notification, is visible and computes
sleep 999, that is a wake-up at 4000.  The guard fails (`timeout_cnt` is 1 and
4000 is not before the stale `next_timeout` 3000), so no timer is armed,
and the only armed timer left has deadline 6000, later than 4000. -/
theorem C15_suppressed_timer_was_needed :
    (loop_reach (mk_env 0 (-1) 0) three_timeouts).armed = [6000, 3000] ∧
    (loop_reach (mk_env 0 (-1) 0) three_timeouts).st.next_timeout = 3000 ∧
    (loop_step (mk_env 0 (-1) 0) (loop_reach (mk_env 0 (-1) 0) three_timeouts)
        (LoopEv.fire 1 3001 false)).st.visible = true ∧
    get_sleep_time (mk_env 0 (-1) 0) 3001
      (loop_step (mk_env 0 (-1) 0) (loop_reach (mk_env 0 (-1) 0) three_timeouts)
        (LoopEv.fire 1 3001 false)).st.displayed = 999 ∧
    (loop_step (mk_env 0 (-1) 0) (loop_reach (mk_env 0 (-1) 0) three_timeouts)
        (LoopEv.fire 1 3001 false)).st.timeout_cnt = 1 ∧
    timers_of (loop_step (mk_env 0 (-1) 0) (loop_reach (mk_env 0 (-1) 0) three_timeouts)
        (LoopEv.fire 1 3001 false)).st.log
      = timers_of (loop_reach (mk_env 0 (-1) 0) three_timeouts).st.log ∧
    (loop_step (mk_env 0 (-1) 0) (loop_reach (mk_env 0 (-1) 0) three_timeouts)
        (LoopEv.fire 1 3001 false)).armed = [6000] ∧
    ∀ d ∈ (loop_step (mk_env 0 (-1) 0) (loop_reach (mk_env 0 (-1) 0) three_timeouts)
        (LoopEv.fire 1 3001 false)).armed, ¬ d ≤ 3001 + 999 := by
  decide

end Dunst
